import Mathlib

/-!
Verification of the PDF guide generator found in
`src/scripts/generate_365_tool_drop_guide_pdf.py`.

The development shallowly embeds the three components of the program:
the text wrapper (`wrap_text` and `estimate_char_width`), the page
composer (`GuideComposer`) and the PDF serializer (`build_pdf`).

Modelling conventions:
* Python strings are modelled as `List Char`; byte buffers as
  `List Nat` (one entry per byte).
* Float arithmetic on page coordinates is modelled with rational
  numbers.  Every constant appearing in the cursor arithmetic of the
  source (margins, leadings, paddings, the per-font width factors) is
  exactly representable in binary floating point or only feeds the
  capacity computation, so the rational model agrees with the float
  execution of the source on the quantities the claims are about.
* The mutable composer object is modelled as an explicit state record;
  the Python aliasing between `self.current` and `self.pages[-1]` is
  modelled by storing the index of the current page.
-/

namespace PdfGuide

/-- Page width constant `PAGE_WIDTH` from the source (US Letter). -/
def PAGE_WIDTH : ℚ := 612

/-- Page height constant `PAGE_HEIGHT` from the source. -/
def PAGE_HEIGHT : ℚ := 792

/-- Margin constant `MARGIN` from the source. -/
def MARGIN : ℚ := 54

/-- Whitespace splitter modelling the Python expression
`text.strip().split()`: the maximal runs of non-whitespace characters,
in order, with all whitespace discarded.  The accumulator holds the
current run, reversed. -/
def splitWsAux : List Char → List Char → List (List Char)
  | acc, [] => if acc = [] then [] else [acc.reverse]
  | acc, c :: cs =>
    if c.isWhitespace then
      if acc = [] then splitWsAux [] cs else acc.reverse :: splitWsAux [] cs
    else splitWsAux (c :: acc) cs

/-- The word list of a Python string, as computed by `text.strip().split()`. -/
def splitWs (s : List Char) : List (List Char) := splitWsAux [] s

/-- Estimated character width: `estimate_char_width` from the source.
Fixed per-font multiples of the size (Helvetica-Bold `F2` 0.56,
Courier `F3` 0.60, Helvetica otherwise 0.53). -/
def estimate_char_width (font : String) (size : ℚ) : ℚ :=
  if font = "F2" then size * (56 / 100)
  else if font = "F3" then size * (60 / 100)
  else size * (53 / 100)

/-- Character capacity of a line: `max(8, int(width / char_width))` from
`wrap_text`.  Python `int` truncates toward zero; truncation agrees with
the floor on non-negative quotients, and both truncation and floor are
collapsed to `0` by `Int.toNat` on negative quotients, where the
outer `max 8` makes the results agree as well. -/
def char_capacity (width : ℚ) (font : String) (size : ℚ) : ℕ :=
  max 8 (⌊width / estimate_char_width font size⌋).toNat

/-- Greedy line-fill loop of `wrap_text`: `cur` is the line currently
under construction (`current` in the source), the remaining words are
folded in one at a time; `cur ++ ' ' :: w` is the inlined `candidate`
string `f"{current} {word}"`. -/
def wrapAux (cap : ℕ) : List Char → List (List Char) → List (List Char)
  | cur, [] => [cur]
  | cur, w :: ws =>
    if (cur ++ ' ' :: w).length ≤ cap then wrapAux cap (cur ++ ' ' :: w) ws
    else cur :: wrapAux cap w ws

/-- The wrapper `wrap_text` from the source: split into words, return no
lines when there are no words, otherwise greedily fill lines up to the
character capacity. -/
def wrap_text (text : List Char) (width : ℚ) (font : String) (size : ℚ) :
    List (List Char) :=
  match splitWs text with
  | [] => []
  | w :: ws => wrapAux (char_capacity width font size) w ws

/-- Join a list of lines with single spaces (the canonical flattening
used by the re-wrap claims). -/
def joinLines : List (List Char) → List Char
  | [] => []
  | [l] => l
  | l :: l2 :: ls => l ++ ' ' :: joinLines (l2 :: ls)

/-- Text style record `BlockStyle` from the source. -/
structure BlockStyle where
  font : String
  size : ℚ
  leading : ℚ
  color : ℚ × ℚ × ℚ
  deriving DecidableEq

/-- One drawing command of a page canvas.  The source stores each
command as a formatted operator string; this embedding keeps the
numeric arguments themselves, which is what the layout claims are
about. -/
inductive DrawOp where
  | rect (x y w h : ℚ) (color : ℚ × ℚ × ℚ)
  | line (x1 y1 x2 y2 : ℚ) (color : ℚ × ℚ × ℚ) (width : ℚ)
  | text (x y : ℚ) (content : List Char) (style : BlockStyle)
  deriving DecidableEq

/-- A page: the ordered command list of a `PageCanvas`. -/
structure PageCanvas where
  commands : List DrawOp
  deriving DecidableEq

/-- State of `GuideComposer`.  `current` is the index of the current
page inside `pages`, modelling the Python aliasing of `self.current`
with the canvas object stored last in `self.pages`. -/
structure ComposerState where
  pages : List PageCanvas
  current : ℕ
  y : ℚ
  page_num : ℕ
  deriving DecidableEq

/-- Style constants of `GuideComposer.__init__`. -/
def title_style : BlockStyle := ⟨"F2", 28, 32, (1, 1, 1)⟩

def h1_style : BlockStyle := ⟨"F2", 18, 24, (8/100, 12/100, 17/100)⟩

def h2_style : BlockStyle := ⟨"F2", 13, 18, (8/100, 12/100, 17/100)⟩

def body_style : BlockStyle := ⟨"F1", 11, 15, (14/100, 17/100, 22/100)⟩

def small_style : BlockStyle := ⟨"F1", 9, 12, (28/100, 32/100, 38/100)⟩

def code_style : BlockStyle := ⟨"F3", 19/2, 13, (10/100, 13/100, 18/100)⟩

/-- Replace the element at one index, keeping the rest (models an
in-place mutation of the page stored at that index). -/
def modifyIdx : List PageCanvas → ℕ → (PageCanvas → PageCanvas) → List PageCanvas
  | [], _, _ => []
  | p :: l, 0, f => f p :: l
  | p :: l, n + 1, f => p :: modifyIdx l n f

/-- Append one drawing command to the current page (the canvas method
calls `rect_fill`, `line` and `text` all append to
`self.current.commands`). -/
def draw (σ : ComposerState) (op : DrawOp) : ComposerState :=
  { σ with pages := modifyIdx σ.pages σ.current fun p => ⟨p.commands ++ [op]⟩ }

/-- Initial composer state (`GuideComposer.__init__`): one empty page,
cursor at `PAGE_HEIGHT - 96`, page counter 1, no chrome drawn. -/
def init_composer : ComposerState :=
  { pages := [⟨[]⟩], current := 0, y := PAGE_HEIGHT - 96, page_num := 1 }

/-- The footer rule drawn by `_draw_page_chrome`; it lives below the
72-unit bottom threshold by design. -/
def footer_rule : DrawOp :=
  .line MARGIN 52 (PAGE_WIDTH - MARGIN) 52 (85/100, 88/100, 93/100) (8/10)

/-- The page-number label drawn by `_draw_page_chrome`; it also lives
below the bottom threshold by design. -/
def page_label (n : ℕ) : DrawOp :=
  .text (PAGE_WIDTH - MARGIN - 40) 36 (("Page " ++ Nat.repr n).toList)
    ⟨"F1", 9, 12, (35/100, 39/100, 46/100)⟩

/-- The five chrome commands of `_draw_page_chrome`, in order. -/
def chrome_cmds (n : ℕ) : List DrawOp :=
  [ .rect 0 (PAGE_HEIGHT - 42) PAGE_WIDTH 42 (9/100, 15/100, 29/100),
    .text MARGIN (PAGE_HEIGHT - 28) ("365 Tool Drop".toList)
      ⟨"F2", 12, 14, (1, 1, 1)⟩,
    .text (PAGE_WIDTH - 244) (PAGE_HEIGHT - 28)
      ("Song Analyzer - Getting Started".toList)
      ⟨"F1", 10, 12, (90/100, 94/100, 1)⟩,
    footer_rule,
    page_label n ]

/-- Redraw the repeating chrome onto the current page
(`_draw_page_chrome`). -/
def draw_page_chrome (σ : ComposerState) : ComposerState :=
  (chrome_cmds σ.page_num).foldl draw σ

/-- Open a fresh page (`new_page`): append a new canvas, point the
current page at it, bump the page counter, reset the cursor to
`PAGE_HEIGHT - 84`, and draw the chrome. -/
def new_page (σ : ComposerState) : ComposerState :=
  draw_page_chrome
    { pages := σ.pages ++ [⟨[]⟩], current := σ.pages.length,
      y := PAGE_HEIGHT - 84, page_num := σ.page_num + 1 }

/-- Pagination guard `ensure_space`: start a new page when the block
would end below the fixed bottom threshold 72. -/
def ensure_space (σ : ComposerState) (needed : ℚ) : ComposerState :=
  if σ.y - needed < 72 then new_page σ else σ

/-- Heading of level 1 (`add_h1`). -/
def add_h1 (σ : ComposerState) (text : List Char) : ComposerState :=
  let σ1 := ensure_space σ (h1_style.leading + 8)
  let σ2 := draw σ1 (.text MARGIN σ1.y text h1_style)
  { σ2 with y := σ2.y - (h1_style.leading + 2) }

/-- Heading of level 2 (`add_h2`). -/
def add_h2 (σ : ComposerState) (text : List Char) : ComposerState :=
  let σ1 := ensure_space σ (h2_style.leading + 6)
  let σ2 := draw σ1 (.text MARGIN σ1.y text h2_style)
  { σ2 with y := σ2.y - h2_style.leading }

/-- Drawing loop of `add_paragraph`: draw each line at the cursor, then
advance the cursor by the leading. -/
def draw_lines (st : BlockStyle) : ComposerState → List (List Char) → ComposerState
  | σ, [] => σ
  | σ, l :: ls =>
      draw_lines st
        { draw σ (.text MARGIN σ.y l st) with y := σ.y - st.leading } ls

/-- Wrapped lines of a paragraph: the wrap call made by `add_paragraph`
(usable width is the page width minus both margins). -/
def para_lines (text : List Char) (style : Option BlockStyle) : List (List Char) :=
  wrap_text text (PAGE_WIDTH - 2 * MARGIN) (style.getD body_style).font
    (style.getD body_style).size

/-- Needed height computed by `add_paragraph`. -/
def para_needed (text : List Char) (style : Option BlockStyle) : ℚ :=
  max (style.getD body_style).leading
    (((para_lines text style).length : ℚ) * (style.getD body_style).leading + 4)

/-- Paragraph insertion (`add_paragraph`); `style = none` selects the
default body style, mirroring the optional Python argument. -/
def add_paragraph (σ : ComposerState) (text : List Char)
    (style : Option BlockStyle) : ComposerState :=
  let st := style.getD body_style
  let lines := wrap_text text (PAGE_WIDTH - 2 * MARGIN) st.font st.size
  let needed := max st.leading ((lines.length : ℚ) * st.leading + 4)
  let σ1 := ensure_space σ needed
  let σ2 := draw_lines st σ1 lines
  { σ2 with y := σ2.y - 4 }

/-- Drawing loop of `add_bullet`: the cursor advances between lines but
not after the last one. -/
def bullet_loop : ComposerState → List (List Char) → ComposerState
  | σ, [] => σ
  | σ, [l] => draw σ (.text (MARGIN + 14) σ.y l body_style)
  | σ, l :: l2 :: ls =>
      bullet_loop
        { draw σ (.text (MARGIN + 14) σ.y l body_style) with
          y := σ.y - body_style.leading } (l2 :: ls)

/-- Wrapped lines of a bullet (usable width is 18 units narrower). -/
def bullet_lines_of (text : List Char) : List (List Char) :=
  wrap_text text (PAGE_WIDTH - 2 * MARGIN - 18) body_style.font body_style.size

/-- Needed height computed by `add_bullet`. -/
def bullet_needed (text : List Char) : ℚ :=
  max body_style.leading
    (((bullet_lines_of text).length : ℚ) * body_style.leading + 2)

/-- Bullet insertion (`add_bullet`): a dash at the margin and each
wrapped line indented by 14 units. -/
def add_bullet (σ : ComposerState) (text : List Char) : ComposerState :=
  let lines := bullet_lines_of text
  let needed := max body_style.leading
    ((lines.length : ℚ) * body_style.leading + 2)
  let σ1 := ensure_space σ needed
  let σ2 := draw σ1 (.text MARGIN σ1.y ("-".toList) body_style)
  let σ3 := bullet_loop σ2 lines
  { σ3 with y := σ3.y - body_style.leading }

/-- Wrapped sublines of one code line (monospace metrics, code-block
inner width). -/
def code_wrap (line : List Char) : List (List Char) :=
  wrap_text line (PAGE_WIDTH - 2 * MARGIN - 16) code_style.font code_style.size

/-- Inner drawing loop of `add_code_block`: draw each subline at the
separate code cursor (the second component). -/
def code_inner : ComposerState × ℚ → List (List Char) → ComposerState × ℚ
  | s, [] => s
  | (σ, yc), sub :: subs =>
      code_inner
        (draw σ (.text (MARGIN + 8) yc sub code_style),
          yc - code_style.leading) subs

/-- Outer loop of `add_code_block`: wrap each input line and draw its
sublines. -/
def code_outer : ComposerState × ℚ → List (List Char) → ComposerState × ℚ
  | s, [] => s
  | s, line :: rest => code_outer (code_inner s (code_wrap line)) rest

/-- Code block insertion (`add_code_block`), with padding `pad = 8`
inlined: background rectangle sized from the declared line count, then
the wrapped sublines on top. -/
def add_code_block (σ : ComposerState) (lines : List (List Char)) : ComposerState :=
  let block_height := (8 : ℚ) * 2 + (lines.length : ℚ) * code_style.leading
  let σ1 := ensure_space σ (block_height + 8)
  let y_bottom := σ1.y - block_height + 10
  let σ2 := draw σ1 (.rect MARGIN y_bottom (PAGE_WIDTH - 2 * MARGIN)
    block_height (93/100, 95/100, 98/100))
  let s := code_outer (σ2, σ1.y - 8) lines
  { s.1 with y := y_bottom - 10 }

/-- Unconditional cursor move (`add_spacer`): no space check. -/
def add_spacer (σ : ComposerState) (amount : ℚ) : ComposerState :=
  { σ with y := σ.y - amount }

/-- The sixteen drawing commands of `add_cover_page`, in order; `today`
stands for the `date.today().isoformat()` string, supplied as a
parameter of the model. -/
def cover_cmds (today : List Char) : List DrawOp :=
  [ .rect 0 0 PAGE_WIDTH PAGE_HEIGHT (97/100, 98/100, 1),
    .rect 0 (PAGE_HEIGHT - 280) PAGE_WIDTH 280 (9/100, 15/100, 29/100),
    .rect 54 (PAGE_HEIGHT - 258) 188 26 (97/100, 64/100, 17/100),
    .text 68 (PAGE_HEIGHT - 240) ("365 TOOL DROP".toList)
      ⟨"F2", 12, 14, (9/100, 15/100, 29/100)⟩,
    .text 54 (PAGE_HEIGHT - 332) ("Song Analyzer".toList) title_style,
    .text 54 (PAGE_HEIGHT - 366) ("Getting Started Guide".toList) title_style,
    .text 54 (PAGE_HEIGHT - 412)
      ("Buyer-ready setup guide for your Gumroad delivery".toList)
      ⟨"F1", 14, 18, (87/100, 92/100, 1)⟩,
    .rect 54 204 (PAGE_WIDTH - 108) 140 (1, 1, 1),
    .line 54 344 (PAGE_WIDTH - 54) 344 (83/100, 87/100, 94/100) 1,
    .text 72 316 ("What this guide covers".toList)
      ⟨"F2", 13, 16, (11/100, 15/100, 22/100)⟩,
    .text 72 292 ("- Local Whisper transcription setup".toList) body_style,
    .text 72 274 ("- New local mood/sentiment/themes engine".toList) body_style,
    .text 72 256 ("- First file workflow in under 10 minutes".toList) body_style,
    .text 72 238 ("- Packaging notes for Gumroad buyers".toList) body_style,
    .text 54 120 (("Version: 1.0    Date: ".toList) ++ today) small_style,
    .text 54 102 ("Brand: 365 Tool Drop".toList)
      ⟨"F2", 10, 12, (15/100, 2/10, 33/100)⟩ ]

/-- Cover page insertion (`add_cover_page`): bespoke drawing onto the
current page, no cursor update. -/
def add_cover_page (σ : ComposerState) (today : List Char) : ComposerState :=
  (cover_cmds today).foldl draw σ

/-- One public composer call. -/
inductive ComposerOp where
  | newPage
  | h1 (text : List Char)
  | h2 (text : List Char)
  | para (text : List Char) (style : Option BlockStyle)
  | bullet (text : List Char)
  | code (lines : List (List Char))
  | spacer (amount : ℚ)
  | cover (today : List Char)

/-- Dispatch one public composer call. -/
def run_op (σ : ComposerState) : ComposerOp → ComposerState
  | .newPage => new_page σ
  | .h1 t => add_h1 σ t
  | .h2 t => add_h2 σ t
  | .para t st => add_paragraph σ t st
  | .bullet t => add_bullet σ t
  | .code ls => add_code_block σ ls
  | .spacer a => add_spacer σ a
  | .cover d => add_cover_page σ d

/-- Run a sequence of public composer calls. -/
def run_ops (σ : ComposerState) (ops : List ComposerOp) : ComposerState :=
  ops.foldl run_op σ

/-- All drawing commands of all pages, in page order. -/
def all_cmds (σ : ComposerState) : List DrawOp :=
  (σ.pages.map PageCanvas.commands).flatten

/-- Lowest vertical coordinate touched by a drawing command (for a
rectangle its bottom edge; every height occurring in the program is
non-negative). -/
def op_min_y : DrawOp → ℚ
  | .rect _ y _ _ _ => y
  | .line _ y1 _ y2 _ _ => min y1 y2
  | .text _ y _ _ => y

/-- The five cursor-checked block-insertion calls of the pagination
claim (cover page and spacer excluded). -/
def is_block : ComposerOp → Bool
  | .h1 _ => true
  | .h2 _ => true
  | .para _ _ => true
  | .bullet _ => true
  | .code _ => true
  | _ => false

/-- All wrapped sublines of a code block, across its input lines. -/
def code_sublines (lines : List (List Char)) : List (List Char) :=
  lines.flatMap code_wrap

/-- Needed height computed by `add_code_block`. -/
def code_needed (lines : List (List Char)) : ℚ :=
  (8 : ℚ) * 2 + (lines.length : ℚ) * code_style.leading + 8

/-- Fits-on-a-fresh-page side condition of the amended pagination
claim: the block is one of the five checked calls, its computed needed
height stays within the usable height of a fresh page
(`(PAGE_HEIGHT - 84) - 72 = 636` units), and a code block gains at most
two sublines over its declared line count through re-wrapping. -/
def fits_page : ComposerOp → Prop
  | .h1 _ => True
  | .h2 _ => True
  | .para t st => para_needed t st ≤ 636
  | .bullet t => bullet_needed t ≤ 636
  | .code ls =>
      code_needed ls ≤ 636 ∧ (code_sublines ls).length ≤ ls.length + 2
  | .newPage => False
  | .spacer _ => False
  | .cover _ => False

/-- The text commands produced by a run of equally spaced lines
starting at a given cursor height. -/
def text_run (x step : ℚ) (st : BlockStyle) : ℚ → List (List Char) → List DrawOp
  | _, [] => []
  | y, l :: ls => .text x y l st :: text_run x step st (y - step) ls

/-- ASCII bytes of a string.  Every formatted string in the serializer
is ASCII, where the UTF-8 bytes produced by `encode("utf-8")` coincide
with the code points. -/
def encodeStr (s : String) : List ℕ := s.toList.map Char.toNat

/-- Font resource objects of `build_pdf`. -/
def font_regular : List ℕ :=
  encodeStr "<< /Type /Font /Subtype /Type1 /BaseFont /Helvetica >>"

def font_bold : List ℕ :=
  encodeStr "<< /Type /Font /Subtype /Type1 /BaseFont /Helvetica-Bold >>"

def font_code : List ℕ :=
  encodeStr "<< /Type /Font /Subtype /Type1 /BaseFont /Courier >>"

/-- A content-stream object: length dictionary, `stream` marker, the
raw content bytes, `endstream` marker. -/
def stream_object (content : List ℕ) : List ℕ :=
  encodeStr ("<< /Length " ++ Nat.repr content.length ++ " >>\nstream\n") ++
    content ++ encodeStr "endstream"

/-- A page-dictionary object; the media box text `612 792` is the
rendering of the formatted constants `PAGE_WIDTH` and `PAGE_HEIGHT`. -/
def page_object (pages_obj content_obj : ℕ) : List ℕ :=
  encodeStr ("<< /Type /Page /Parent " ++ Nat.repr pages_obj ++
    " 0 R /MediaBox [0 0 612 792] /Resources << /Font << /F1 1 0 R /F2 2 0 R /F3 3 0 R >> >> /Contents "
    ++ Nat.repr content_obj ++ " 0 R >>")

/-- The pages-tree object listing the page object references. -/
def pages_tree_object (page_ids : List ℕ) (n : ℕ) : List ℕ :=
  encodeStr ("<< /Type /Pages /Kids [" ++
    String.intercalate " " (page_ids.map fun pid => Nat.repr pid ++ " 0 R") ++
    "] /Count " ++ Nat.repr n ++ " >>")

/-- The catalog object. -/
def catalog_object (pages_obj : ℕ) : List ℕ :=
  encodeStr ("<< /Type /Catalog /Pages " ++ Nat.repr pages_obj ++ " 0 R >>")

/-- The content-object placement loop of `build_pdf` over
`enumerate(streams)`: stream `idx` is stored at index
`first_content_obj + idx - 1` with `first_content_obj = 4`. -/
def place_contents : List (List ℕ) → ℕ → List (List ℕ) → List (List ℕ)
  | objs, _, [] => objs
  | objs, idx, s :: rest =>
      place_contents (objs.set (4 + idx - 1) (stream_object s)) (idx + 1) rest

/-- The page-dictionary placement loop of `build_pdf` over
`range(n_pages)`; the final argument counts remaining iterations. -/
def place_pages (first_page pages_obj : ℕ) :
    List (List ℕ) → ℕ → ℕ → List (List ℕ)
  | objs, _, 0 => objs
  | objs, idx, k + 1 =>
      place_pages first_page pages_obj
        (objs.set (first_page + idx - 1) (page_object pages_obj (4 + idx)))
        (idx + 1) k

/-- The object table of `build_pdf`: fonts then content objects then
page dictionaries then pages tree then catalog, with object identifier
`i` stored at index `i - 1`. -/
def pdf_objects (streams : List (List ℕ)) : List (List ℕ) :=
  let n := streams.length
  let first_content := 4
  let first_page := first_content + n
  let pages_obj := first_page + n
  let catalog_obj := pages_obj + 1
  let objs0 := List.replicate catalog_obj ([] : List ℕ)
  let objs1 := ((objs0.set 0 font_regular).set 1 font_bold).set 2 font_code
  let objs2 := place_contents objs1 0 streams
  let objs3 := place_pages first_page pages_obj objs2 0 n
  let page_ids := (List.range n).map fun idx => first_page + idx
  (objs3.set (pages_obj - 1) (pages_tree_object page_ids n)).set
    (catalog_obj - 1) (catalog_object pages_obj)

/-- The file header bytes `b"%PDF-1.4\n%\xe2\xe3\xcf\xd3\n"`. -/
def pdf_header : List ℕ :=
  encodeStr "%PDF-1.4\n%" ++ [226, 227, 207, 211] ++ encodeStr "\n"

/-- The serialized form of one object: header line `f"{id} 0 obj\n"`,
payload, `endobj` line. -/
def obj_block (id : ℕ) (obj : List ℕ) : List ℕ :=
  encodeStr (Nat.repr id ++ " 0 obj\n") ++ obj ++ encodeStr "\nendobj\n"

/-- The emission loop of `build_pdf`: the first component is the grown
output buffer, the second the recorded offset list (the source records
`len(out)` right before writing each object). -/
def emit_loop : List ℕ → ℕ → List (List ℕ) → List ℕ × List ℕ
  | out, _, [] => (out, [])
  | out, id, obj :: objs =>
      let r := emit_loop (out ++ obj_block id obj) (id + 1) objs
      (r.1, out.length :: r.2)

/-- Concatenation of serialized objects with identifiers assigned
sequentially from `id`. -/
def emit_blocks : ℕ → List (List ℕ) → List ℕ
  | _, [] => []
  | id, obj :: objs => obj_block id obj ++ emit_blocks (id + 1) objs

/-- The offsets recorded for the object headers of a generated file. -/
def pdf_offsets (streams : List (List ℕ)) : List ℕ :=
  (emit_loop pdf_header 1 (pdf_objects streams)).2

/-- The object header token `f"{obj_id} 0 obj"`. -/
def obj_header (id : ℕ) : List ℕ := encodeStr (Nat.repr id ++ " 0 obj")

/-- Zero-padded ten-digit decimal rendering `f"{off:010d}"`. -/
def pad10 (n : ℕ) : String :=
  String.mk (List.replicate (10 - (Nat.repr n).length) '0') ++ Nat.repr n

/-- One cross-reference entry line `f"{off:010d} 00000 n \n"`. -/
def xref_entry (off : ℕ) : List ℕ := encodeStr (pad10 off ++ " 00000 n \n")

/-- The cross-reference table and trailer bytes written by `build_pdf`
after the objects: count line, free entry for object 0, one entry per
recorded offset, trailer dictionary and the start offset of the table. -/
def xref_trailer (streams : List (List ℕ)) : List ℕ :=
  let n := streams.length
  let pages_obj := 4 + n + n
  let catalog_obj := pages_obj + 1
  let total_objs := catalog_obj
  let r := emit_loop pdf_header 1 (pdf_objects streams)
  let xref_start := r.1.length
  encodeStr ("xref\n0 " ++ Nat.repr (total_objs + 1) ++ "\n") ++
    encodeStr "0000000000 65535 f \n" ++ (r.2.map xref_entry).flatten ++
    encodeStr ("trailer\n<< /Size " ++ Nat.repr (total_objs + 1) ++
      " /Root " ++ Nat.repr catalog_obj ++ " 0 R >>\nstartxref\n" ++
      Nat.repr xref_start ++ "\n%%EOF\n")

/-- The serializer `build_pdf`: header, objects in identifier order
(the emission loop), then the cross-reference table and trailer. -/
def build_pdf (streams : List (List ℕ)) : List ℕ :=
  (emit_loop pdf_header 1 (pdf_objects streams)).1 ++ xref_trailer streams

/-- Composer well-formedness: the current page is the last page, and
the page counter equals the page count. -/
def composer_wf (σ : ComposerState) : Prop :=
  σ.current + 1 = σ.pages.length ∧ σ.page_num = σ.pages.length

/-- A command stays clear of the 72-unit bottom margin, or is one of the
two footer chrome elements that live below it by design. -/
def clear_of_margin (d : DrawOp) : Prop :=
  72 ≤ op_min_y d ∨ d = footer_rule ∨ ∃ n, d = page_label n

/-- Induction invariant for the pagination theorem: the current page is
the last one, the cursor is above the bottom threshold, and every
command drawn so far is clear of the bottom margin. -/
def layout_ok (σ : ComposerState) : Prop :=
  σ.current + 1 = σ.pages.length ∧ 72 ≤ σ.y ∧
    ∀ d ∈ all_cmds σ, clear_of_margin d

/-- One page list extends another: it is at least as long, and the page
at every existing index keeps its commands as a prefix (commands are
only appended; pages are never removed, replaced or reordered). -/
def pages_extend (l l' : List PageCanvas) : Prop :=
  l.length ≤ l'.length ∧ ∀ (i : ℕ) (p : PageCanvas), l[i]? = some p →
    ∃ (p' : PageCanvas) (t : List DrawOp),
      l'[i]? = some p' ∧ p'.commands = p.commands ++ t

/-! Helper lemmas about the whitespace splitter and the greedy wrapper. -/

/-- A string made of whitespace only splits into no words. -/
theorem splitWsAux_ws_nil :
    ∀ s : List Char, (∀ c ∈ s, c.isWhitespace) → splitWsAux [] s = []
  | [], _ => by simp [splitWsAux]
  | c :: cs, h => by
    have hc : c.isWhitespace := h c (List.mem_cons_self _ _)
    simpa [splitWsAux, hc] using
      splitWsAux_ws_nil cs fun d hd => h d (List.mem_cons_of_mem _ hd)

/-- Splitting distributes over a space that separates two fragments. -/
theorem splitWsAux_space :
    ∀ (xs acc ys : List Char),
      splitWsAux acc (xs ++ ' ' :: ys) = splitWsAux acc xs ++ splitWs ys
  | [], acc, ys => by
    have hsp : (' ').isWhitespace = true := by decide
    by_cases h : acc = [] <;> simp [splitWsAux, hsp, h, splitWs]
  | c :: xs, acc, ys => by
    by_cases hw : c.isWhitespace
    · by_cases h : acc = [] <;>
        simp [splitWsAux, hw, h, splitWsAux_space xs]
    · simp [splitWsAux, hw, splitWsAux_space xs (c :: acc) ys]

/-- Splitting a whitespace-free string yields at most the one run. -/
theorem splitWsAux_no_ws :
    ∀ (w acc : List Char), (∀ c ∈ w, ¬ c.isWhitespace) →
      splitWsAux acc w =
        if acc.reverse ++ w = [] then [] else [acc.reverse ++ w]
  | [], acc, _ => by
    by_cases h : acc = [] <;> simp [splitWsAux, h]
  | c :: w, acc, h => by
    have hc : ¬ c.isWhitespace := h c (List.mem_cons_self _ _)
    have hrec :=
      splitWsAux_no_ws w (c :: acc) fun d hd => h d (List.mem_cons_of_mem _ hd)
    rw [show splitWsAux acc (c :: w) = splitWsAux (c :: acc) w from by
      simp [splitWsAux, hc]]
    rw [hrec]
    simp [List.reverse_cons, List.append_assoc]

/-- Splitting a nonempty whitespace-free string yields exactly that word. -/
theorem splitWs_single (w : List Char) (h1 : w ≠ [])
    (h2 : ∀ c ∈ w, ¬ c.isWhitespace) : splitWs w = [w] := by
  rw [splitWs, splitWsAux_no_ws w [] h2]
  simp [h1]

/-- Every word produced by the splitter is nonempty and whitespace-free. -/
theorem splitWsAux_words :
    ∀ (s acc : List Char), (∀ c ∈ acc, ¬ c.isWhitespace) →
      ∀ w ∈ splitWsAux acc s, w ≠ [] ∧ ∀ c ∈ w, ¬ c.isWhitespace
  | [], acc, hacc => by
    by_cases h : acc = []
    · simp [splitWsAux, h]
    · intro w hw
      simp only [splitWsAux, h, if_false, ite_false, List.mem_singleton] at hw
      subst hw
      refine ⟨by simpa using h, fun c hc => hacc c ?_⟩
      simpa using hc
  | c :: s, acc, hacc => by
    by_cases hw : c.isWhitespace
    · by_cases h : acc = []
      · simpa [splitWsAux, hw, h] using
          splitWsAux_words s [] (by simp)
      · intro u hu
        simp only [splitWsAux, hw, if_true, h, ite_false] at hu
        rcases List.mem_cons.mp hu with rfl | hu
        · refine ⟨by simpa using h, fun d hd => hacc d ?_⟩
          simpa using hd
        · exact splitWsAux_words s [] (by simp) u hu
    · intro u hu
      simp only [splitWsAux, hw, if_false, ite_false] at hu
      refine splitWsAux_words s (c :: acc) ?_ u hu
      intro d hd
      rcases List.mem_cons.mp hd with rfl | hd
      · exact hw
      · exact hacc d hd

/-- Unfolding equation for the greedy loop on a remaining word. -/
theorem wrapAux_cons (cap : ℕ) (cur w : List Char) (ws : List (List Char)) :
    wrapAux cap cur (w :: ws) =
      if (cur ++ ' ' :: w).length ≤ cap then wrapAux cap (cur ++ ' ' :: w) ws
      else cur :: wrapAux cap w ws := rfl

/-- The greedy wrapper never returns an empty list of lines. -/
theorem wrapAux_ne_nil : ∀ (cap : ℕ) (cur : List Char) (ws : List (List Char)),
    wrapAux cap cur ws ≠ []
  | _, _, [] => by simp [wrapAux]
  | cap, cur, w :: ws => by
    rw [wrapAux_cons]
    by_cases h : (cur ++ ' ' :: w).length ≤ cap
    · rw [if_pos h]
      exact wrapAux_ne_nil cap (cur ++ ' ' :: w) ws
    · rw [if_neg h]
      simp

/-- Unfolding lemma for `joinLines` on a list with at least two lines. -/
theorem joinLines_cons (l : List Char) (ls : List (List Char)) (h : ls ≠ []) :
    joinLines (l :: ls) = l ++ ' ' :: joinLines ls := by
  cases ls with
  | nil => exact absurd rfl h
  | cons l2 ls => rfl

/-- Splitting the space-joined output of the greedy loop recovers the
current line followed by the untouched remaining words. -/
theorem splitWs_joinLines_wrapAux :
    ∀ (ws : List (List Char)) (cap : ℕ) (cur : List Char),
      (∀ w ∈ ws, w ≠ [] ∧ ∀ c ∈ w, ¬ c.isWhitespace) →
      splitWs (joinLines (wrapAux cap cur ws)) = splitWs cur ++ ws
  | [], cap, cur, _ => by simp [wrapAux, joinLines]
  | w :: ws, cap, cur, h => by
    have hw := h w (List.mem_cons_self _ _)
    have hws := fun d hd => h d (List.mem_cons_of_mem w hd)
    by_cases hc : (cur ++ ' ' :: w).length ≤ cap
    · rw [wrapAux_cons, if_pos hc]
      rw [splitWs_joinLines_wrapAux ws cap (cur ++ ' ' :: w) hws]
      rw [show splitWs (cur ++ ' ' :: w) = splitWs cur ++ splitWs w from
        splitWsAux_space cur [] w]
      rw [splitWs_single w hw.1 hw.2]
      simp
    · rw [wrapAux_cons, if_neg hc]
      rw [joinLines_cons cur _ (wrapAux_ne_nil cap w ws)]
      rw [show splitWs (cur ++ ' ' :: joinLines (wrapAux cap w ws)) =
          splitWs cur ++ splitWs (joinLines (wrapAux cap w ws)) from
        splitWsAux_space cur [] _]
      rw [splitWs_joinLines_wrapAux ws cap w hws]
      rw [splitWs_single w hw.1 hw.2]
      simp

/-- Unfolding lemma: wrapping a text with no words yields no lines. -/
theorem wrap_text_eq_nil (text : List Char) (width : ℚ) (font : String)
    (size : ℚ) (h : splitWs text = []) : wrap_text text width font size = [] := by
  unfold wrap_text
  rw [h]

/-- Unfolding lemma: wrapping a text whose word list is `w :: ws` runs
the greedy loop on those words. -/
theorem wrap_text_eq_cons (text : List Char) (w : List Char)
    (ws : List (List Char)) (width : ℚ) (font : String) (size : ℚ)
    (h : splitWs text = w :: ws) :
    wrap_text text width font size =
      wrapAux (char_capacity width font size) w ws := by
  unfold wrap_text
  rw [h]

/-- The wrapper only looks at the word list of its input. -/
theorem wrap_text_of_splitWs_eq (a b : List Char) (width : ℚ) (font : String)
    (size : ℚ) (h : splitWs a = splitWs b) :
    wrap_text a width font size = wrap_text b width font size := by
  unfold wrap_text
  rw [h]

/-- Splitting the space-joined wrapped lines of any text recovers the
word list of that text (shared by the word-preservation and the
idempotence claims). -/
theorem splitWs_joinLines_wrap (text : List Char) (width : ℚ) (font : String)
    (size : ℚ) :
    splitWs (joinLines (wrap_text text width font size)) = splitWs text := by
  rcases hsp : splitWs text with _ | ⟨w, ws⟩
  · rw [wrap_text_eq_nil text width font size hsp]
    rfl
  · rw [wrap_text_eq_cons text w ws width font size hsp]
    have hsp' : splitWsAux [] text = w :: ws := hsp
    have hgood := splitWsAux_words text [] (by simp)
    have hw : w ≠ [] ∧ ∀ c ∈ w, ¬ c.isWhitespace :=
      hgood w (by rw [hsp']; exact List.mem_cons_self _ _)
    have hws : ∀ d ∈ ws, d ≠ [] ∧ ∀ c ∈ d, ¬ c.isWhitespace := fun d hd =>
      hgood d (by rw [hsp']; exact List.mem_cons_of_mem w hd)
    rw [splitWs_joinLines_wrapAux ws (char_capacity width font size) w hws]
    rw [splitWs_single w hw.1 hw.2]
    rfl

/-- Every line the greedy loop emits is either within capacity or is one
of the supplied words. -/
theorem wrapAux_mem_len :
    ∀ (ws : List (List Char)) (cap : ℕ) (cur : List Char)
      (W : List (List Char)),
      (cur ∈ W ∨ cur.length ≤ cap) → (∀ w ∈ ws, w ∈ W) →
      ∀ l ∈ wrapAux cap cur ws, l ∈ W ∨ l.length ≤ cap
  | [], cap, cur, W, hcur, _ => by
    intro l hl
    simp only [wrapAux, List.mem_singleton] at hl
    exact hl ▸ hcur
  | w :: ws, cap, cur, W, hcur, hws => by
    intro l hl
    by_cases hc : (cur ++ ' ' :: w).length ≤ cap
    · rw [wrapAux_cons, if_pos hc] at hl
      exact wrapAux_mem_len ws cap (cur ++ ' ' :: w) W (Or.inr hc)
        (fun u hu => hws u (List.mem_cons_of_mem w hu)) l hl
    · rw [wrapAux_cons, if_neg hc] at hl
      rcases List.mem_cons.mp hl with rfl | hl
      · exact hcur
      · exact wrapAux_mem_len ws cap w W
          (Or.inl (hws w (List.mem_cons_self _ _)))
          (fun u hu => hws u (List.mem_cons_of_mem w hu)) l hl

/-- C4: every line returned by `wrap_text` has character count at most
`char_capacity width font size` (`max(8, floor(width / charWidth))` with
the per-font width factors 0.56, 0.60, 0.53), except that a single word
longer than the capacity appears alone, unmodified, as a line of its
own (it is literally one of the words of the input text). -/
theorem wrap_text_capacity (text : List Char) (width : ℚ) (font : String)
    (size : ℚ) (l : List Char) (hl : l ∈ wrap_text text width font size) :
    l.length ≤ char_capacity width font size ∨
      (l ∈ splitWs text ∧ char_capacity width font size < l.length) := by
  rcases hsp : splitWs text with _ | ⟨w, ws⟩
  · rw [wrap_text_eq_nil text width font size hsp] at hl
    simp at hl
  · rw [wrap_text_eq_cons text w ws width font size hsp] at hl
    have hmem := wrapAux_mem_len ws (char_capacity width font size) w
      (w :: ws) (Or.inl (List.mem_cons_self _ _))
      (fun u hu => List.mem_cons_of_mem w hu) l hl
    by_cases hle : l.length ≤ char_capacity width font size
    · exact Or.inl hle
    · rcases hmem with hm | hm
      · exact Or.inr ⟨hm, Nat.lt_of_not_le hle⟩
      · exact Or.inl hm

/-- Evaluation of the width estimate for the regular font tag. -/
theorem estimate_char_width_F1 (size : ℚ) :
    estimate_char_width "F1" size = size * (53 / 100) := by
  rw [estimate_char_width, if_neg (by decide), if_neg (by decide)]

/-- Capacity evaluation used by witnesses: width budget 1 at Helvetica
size 1 floors to 1 and is clamped to the minimum of 8. -/
theorem char_capacity_one : char_capacity 1 "F1" 1 = 8 := by
  rw [char_capacity, estimate_char_width_F1]
  norm_num

/-- C4 witness: the 10-character word `aaaaaaaaaa` exceeds the capacity 8
and is returned alone and unmodified. -/
theorem wrap_text_capacity_witness :
    ("aaaaaaaaaa".toList ∈ wrap_text ("aaaaaaaaaa".toList) 1 "F1" 1) ∧
      (("aaaaaaaaaa".toList).length ≤ char_capacity 1 "F1" 1 ∨
        ("aaaaaaaaaa".toList ∈ splitWs ("aaaaaaaaaa".toList) ∧
          char_capacity 1 "F1" 1 < ("aaaaaaaaaa".toList).length)) := by
  have hmem : "aaaaaaaaaa".toList ∈ wrap_text ("aaaaaaaaaa".toList) 1 "F1" 1 := by
    rw [wrap_text_eq_cons ("aaaaaaaaaa".toList) ("aaaaaaaaaa".toList) [] 1 "F1" 1
      (by decide), char_capacity_one]
    decide
  exact ⟨hmem, wrap_text_capacity ("aaaaaaaaaa".toList) 1 "F1" 1
    ("aaaaaaaaaa".toList) hmem⟩

/-- C7: `wrap_text` is idempotent under re-wrapping of its own
joined-with-single-spaces output at the same width, font and size. -/
theorem wrap_text_rewrap (text : List Char) (width : ℚ) (font : String)
    (size : ℚ) :
    wrap_text (joinLines (wrap_text text width font size)) width font size =
      wrap_text text width font size :=
  wrap_text_of_splitWs_eq _ _ width font size
    (splitWs_joinLines_wrap text width font size)

/-- C8: wrapping an empty or whitespace-only text produces no lines, for
every width budget, font tag and size. -/
theorem wrap_text_whitespace (text : List Char) (width : ℚ) (font : String)
    (size : ℚ) (h : ∀ c ∈ text, c.isWhitespace) :
    wrap_text text width font size = [] :=
  wrap_text_eq_nil text width font size (splitWsAux_ws_nil text h)

/-- C8 witness: a two-character whitespace string wraps to no lines. -/
theorem wrap_text_whitespace_witness :
    (∀ c ∈ (" \t".toList), c.isWhitespace) ∧
      wrap_text (" \t".toList) 504 "F1" 11 = [] :=
  ⟨by decide, wrap_text_whitespace (" \t".toList) 504 "F1" 11 (by decide)⟩

/-- C10: `wrap_text` preserves the word sequence of its input; splitting
the space-joined returned lines on whitespace yields exactly the word
list of the input text. -/
theorem wrap_text_preserves_words (text : List Char) (width : ℚ)
    (font : String) (size : ℚ) :
    splitWs (joinLines (wrap_text text width font size)) = splitWs text :=
  splitWs_joinLines_wrap text width font size

/-! Helper lemmas about the composer state. -/

theorem modifyIdx_length : ∀ (l : List PageCanvas) (i : ℕ)
    (f : PageCanvas → PageCanvas), (modifyIdx l i f).length = l.length
  | [], _, _ => rfl
  | _ :: l, 0, f => rfl
  | p :: l, n + 1, f => by simp [modifyIdx, modifyIdx_length l n f]

theorem modifyIdx_append_cmds : ∀ (l : List PageCanvas) (i : ℕ)
    (g h : List DrawOp),
    modifyIdx (modifyIdx l i fun p => ⟨p.commands ++ g⟩) i
        (fun p => ⟨p.commands ++ h⟩) =
      modifyIdx l i fun p => ⟨p.commands ++ (g ++ h)⟩
  | [], _, _, _ => rfl
  | p :: l, 0, g, h => by simp [modifyIdx]
  | p :: l, n + 1, g, h => by
    simp [modifyIdx, modifyIdx_append_cmds l n g h]

theorem modifyIdx_cmds_nil : ∀ (l : List PageCanvas) (i : ℕ),
    modifyIdx l i (fun p => ⟨p.commands ++ []⟩) = l
  | [], _ => rfl
  | p :: l, 0 => by
    show (⟨p.commands ++ []⟩ : PageCanvas) :: l = p :: l
    rw [List.append_nil]
  | p :: l, n + 1 => by
    show p :: modifyIdx l n (fun p => ⟨p.commands ++ []⟩) = p :: l
    rw [modifyIdx_cmds_nil l n]

theorem modifyIdx_last : ∀ (l : List PageCanvas) (x : PageCanvas)
    (f : PageCanvas → PageCanvas), modifyIdx (l ++ [x]) l.length f = l ++ [f x]
  | [], x, f => rfl
  | p :: l, x, f => by simp [modifyIdx, modifyIdx_last l x f]

theorem modifyIdx_getElem? : ∀ (l : List PageCanvas) (i : ℕ)
    (f : PageCanvas → PageCanvas) (j : ℕ),
    (modifyIdx l i f)[j]? = if j = i then (l[j]?).map f else l[j]?
  | [], i, f, j => by simp [modifyIdx]
  | p :: l, 0, f, 0 => by simp [modifyIdx]
  | p :: l, 0, f, j + 1 => by simp [modifyIdx]
  | p :: l, i + 1, f, 0 => by simp [modifyIdx]
  | p :: l, i + 1, f, j + 1 => by
    simp [modifyIdx, modifyIdx_getElem? l i f j]

/-- Appending commands to the last page appends them to the flattened
command list. -/
theorem flatten_modifyIdx_last : ∀ (l : List PageCanvas) (i : ℕ)
    (g : List DrawOp), i + 1 = l.length →
    ((modifyIdx l i fun p => ⟨p.commands ++ g⟩).map PageCanvas.commands).flatten
      = (l.map PageCanvas.commands).flatten ++ g
  | [], i, g, h => by simp at h
  | [p], 0, g, _ => by simp [modifyIdx]
  | p :: q :: l, 0, g, h => by simp at h
  | p :: q :: l, i + 1, g, h => by
    have := flatten_modifyIdx_last (q :: l) i g (by simpa using h)
    simp only [modifyIdx, List.map_cons, List.flatten_cons, this,
      List.append_assoc]

theorem all_cmds_draw (σ : ComposerState) (op : DrawOp)
    (h : σ.current + 1 = σ.pages.length) :
    all_cmds (draw σ op) = all_cmds σ ++ [op] := by
  simp only [all_cmds, draw]
  exact flatten_modifyIdx_last σ.pages σ.current [op] h

/-- Effect of folding `draw` over a command list. -/
theorem foldl_draw_spec : ∀ (g : List DrawOp) (σ : ComposerState),
    (g.foldl draw σ).pages =
        modifyIdx σ.pages σ.current (fun p => ⟨p.commands ++ g⟩) ∧
      (g.foldl draw σ).current = σ.current ∧
      (g.foldl draw σ).y = σ.y ∧
      (g.foldl draw σ).page_num = σ.page_num
  | [], σ => ⟨(modifyIdx_cmds_nil σ.pages σ.current).symm, rfl, rfl, rfl⟩
  | op :: g, σ => by
    obtain ⟨ihp, ihc, ihy, ihn⟩ := foldl_draw_spec g (draw σ op)
    have e : (op :: g).foldl draw σ = g.foldl draw (draw σ op) := rfl
    refine ⟨?_, ?_, ?_, ?_⟩
    · rw [e, ihp]
      exact modifyIdx_append_cmds σ.pages σ.current [op] g
    · rw [e, ihc]
      rfl
    · rw [e, ihy]
      rfl
    · rw [e, ihn]
      rfl

/-- Field description of `new_page`: one fresh page carrying exactly
the chrome is appended and becomes current. -/
theorem new_page_spec (σ : ComposerState) :
    (new_page σ).pages = σ.pages ++ [⟨chrome_cmds (σ.page_num + 1)⟩] ∧
      (new_page σ).current = σ.pages.length ∧
      (new_page σ).y = PAGE_HEIGHT - 84 ∧
      (new_page σ).page_num = σ.page_num + 1 := by
  obtain ⟨hp, hc, hy, hn⟩ := foldl_draw_spec (chrome_cmds (σ.page_num + 1))
    { pages := σ.pages ++ [⟨[]⟩], current := σ.pages.length,
      y := PAGE_HEIGHT - 84, page_num := σ.page_num + 1 }
  have e : new_page σ = (chrome_cmds (σ.page_num + 1)).foldl draw
      { pages := σ.pages ++ [⟨[]⟩], current := σ.pages.length,
        y := PAGE_HEIGHT - 84, page_num := σ.page_num + 1 } := rfl
  refine ⟨?_, ?_, ?_, ?_⟩
  · rw [e, hp]
    exact (modifyIdx_last σ.pages ⟨[]⟩
      (fun p => ⟨p.commands ++ chrome_cmds (σ.page_num + 1)⟩)).trans (by simp)
  · rw [e, hc]
  · rw [e, hy]
  · rw [e, hn]

theorem all_cmds_new_page (σ : ComposerState) :
    all_cmds (new_page σ) = all_cmds σ ++ chrome_cmds (σ.page_num + 1) := by
  rw [all_cmds, (new_page_spec σ).1]
  simp [all_cmds]

/-- Every chrome command is clear of the margin or is one of the two
designed footer elements. -/
theorem chrome_clear (n : ℕ) : ∀ d ∈ chrome_cmds n, clear_of_margin d := by
  intro d hd
  simp only [chrome_cmds, List.mem_cons, List.mem_singleton] at hd
  rcases hd with rfl | rfl | rfl | rfl | rfl | h
  · left; rw [op_min_y]; norm_num [PAGE_HEIGHT]
  · left; rw [op_min_y]; norm_num [PAGE_HEIGHT]
  · left; rw [op_min_y]; norm_num [PAGE_HEIGHT]
  · right; left; rfl
  · right; right; exact ⟨n, rfl⟩
  · simp at h

/-- Effect of the pagination guard under the fits-page bound: the
current page stays last, the cursor clears the needed height above the
threshold, and commands only grow by chrome. -/
theorem ensure_space_spec (σ : ComposerState) (needed : ℚ)
    (hwf : σ.current + 1 = σ.pages.length) (h72 : 72 ≤ σ.y)
    (hfit : needed ≤ 636) :
    (ensure_space σ needed).current + 1 = (ensure_space σ needed).pages.length ∧
      72 ≤ (ensure_space σ needed).y - needed ∧
      72 ≤ (ensure_space σ needed).y ∧
      ∀ d ∈ all_cmds (ensure_space σ needed),
        d ∈ all_cmds σ ∨ d ∈ chrome_cmds (σ.page_num + 1) := by
  rw [ensure_space]
  by_cases h : σ.y - needed < 72
  · rw [if_pos h]
    obtain ⟨hp, hc, hy, _⟩ := new_page_spec σ
    refine ⟨by rw [hp, hc]; simp, ?_, ?_, ?_⟩
    · rw [hy]; norm_num [PAGE_HEIGHT]; linarith
    · rw [hy]; norm_num [PAGE_HEIGHT]
    · intro d hd
      rw [all_cmds_new_page] at hd
      exact List.mem_append.mp hd
  · rw [if_neg h]
    exact ⟨hwf, by linarith, h72, fun d hd => Or.inl hd⟩

/-- Positions of the commands of a text run. -/
theorem text_run_mem (x step : ℚ) (st : BlockStyle) :
    ∀ (ls : List (List Char)) (y : ℚ) (d : DrawOp),
      d ∈ text_run x step st y ls →
      ∃ i : ℕ, i < ls.length ∧ op_min_y d = y - i * step
  | [], y, d => by simp [text_run]
  | l :: ls, y, d => by
    intro hd
    rcases List.mem_cons.mp hd with rfl | hd
    · exact ⟨0, Nat.succ_pos _, by rw [op_min_y]; push_cast; ring⟩
    · obtain ⟨i, hi, he⟩ := text_run_mem x step st ls (y - step) d hd
      refine ⟨i + 1, by simp only [List.length_cons]; omega, ?_⟩
      rw [he]; push_cast; ring

/-- The command drawn for the `i`-th line of a text run. -/
theorem text_run_mem_of (x step : ℚ) (st : BlockStyle) :
    ∀ (ls : List (List Char)) (y : ℚ) (i : ℕ) (l : List Char),
      ls[i]? = some l →
      DrawOp.text x (y - i * step) l st ∈ text_run x step st y ls
  | [], y, i, l => by simp
  | l0 :: ls, y, 0, l => by
    intro h
    simp only [List.getElem?_cons_zero, Option.some_inj] at h
    subst h
    rw [show y - (0 : ℕ) * step = y by push_cast; ring]
    exact List.mem_cons_self _ _
  | l0 :: ls, y, i + 1, l => by
    intro h
    simp only [List.getElem?_cons_succ] at h
    have := text_run_mem_of x step st ls (y - step) i l h
    rw [show y - ((i + 1 : ℕ) : ℚ) * step = (y - step) - i * step by
      push_cast; ring]
    exact List.mem_cons_of_mem _ this

/-- Effect of the paragraph drawing loop. -/
theorem draw_lines_spec (st : BlockStyle) :
    ∀ (lines : List (List Char)) (σ : ComposerState),
      (draw_lines st σ lines).pages =
          modifyIdx σ.pages σ.current
            (fun p => ⟨p.commands ++ text_run MARGIN st.leading st σ.y lines⟩) ∧
        (draw_lines st σ lines).current = σ.current ∧
        (draw_lines st σ lines).y = σ.y - lines.length * st.leading ∧
        (draw_lines st σ lines).page_num = σ.page_num
  | [], σ => by
    refine ⟨(modifyIdx_cmds_nil σ.pages σ.current).symm, rfl, ?_, rfl⟩
    show σ.y = σ.y - (([] : List (List Char)).length : ℚ) * st.leading
    simp
  | l :: ls, σ => by
    obtain ⟨ihp, ihc, ihy, ihn⟩ := draw_lines_spec st ls
      { draw σ (.text MARGIN σ.y l st) with y := σ.y - st.leading }
    have e : draw_lines st σ (l :: ls) =
        draw_lines st { draw σ (.text MARGIN σ.y l st) with
          y := σ.y - st.leading } ls := rfl
    refine ⟨?_, ?_, ?_, ?_⟩
    · rw [e, ihp]
      exact modifyIdx_append_cmds σ.pages σ.current [.text MARGIN σ.y l st]
        (text_run MARGIN st.leading st (σ.y - st.leading) ls)
    · rw [e, ihc]
      rfl
    · rw [e, ihy]
      show σ.y - st.leading - (ls.length : ℚ) * st.leading =
        σ.y - ((l :: ls).length : ℚ) * st.leading
      push_cast [List.length_cons]
      ring
    · rw [e, ihn]
      rfl

/-- Effect of the bullet drawing loop (no cursor advance after the last
line). -/
theorem bullet_loop_spec :
    ∀ (lines : List (List Char)) (σ : ComposerState),
      (bullet_loop σ lines).pages =
          modifyIdx σ.pages σ.current
            (fun p => ⟨p.commands ++
              text_run (MARGIN + 14) body_style.leading body_style σ.y lines⟩) ∧
        (bullet_loop σ lines).current = σ.current ∧
        (bullet_loop σ lines).y =
          σ.y - ((lines.length - 1 : ℕ) : ℚ) * body_style.leading ∧
        (bullet_loop σ lines).page_num = σ.page_num
  | [], σ => by
    refine ⟨(modifyIdx_cmds_nil σ.pages σ.current).symm, rfl, ?_, rfl⟩
    show σ.y = σ.y - (((0 - 1 : ℕ)) : ℚ) * body_style.leading
    norm_num
  | [l], σ => by
    refine ⟨?_, rfl, ?_, rfl⟩
    · show modifyIdx σ.pages σ.current
        (fun p => ⟨p.commands ++ [.text (MARGIN + 14) σ.y l body_style]⟩) = _
      rfl
    · show σ.y = σ.y - (((1 - 1 : ℕ)) : ℚ) * body_style.leading
      norm_num
  | l :: l2 :: ls, σ => by
    obtain ⟨ihp, ihc, ihy, ihn⟩ := bullet_loop_spec (l2 :: ls)
      { draw σ (.text (MARGIN + 14) σ.y l body_style) with
        y := σ.y - body_style.leading }
    have e : bullet_loop σ (l :: l2 :: ls) =
        bullet_loop { draw σ (.text (MARGIN + 14) σ.y l body_style) with
          y := σ.y - body_style.leading } (l2 :: ls) := rfl
    refine ⟨?_, ?_, ?_, ?_⟩
    · rw [e, ihp]
      exact modifyIdx_append_cmds σ.pages σ.current
        [.text (MARGIN + 14) σ.y l body_style]
        (text_run (MARGIN + 14) body_style.leading body_style
          (σ.y - body_style.leading) (l2 :: ls))
    · rw [e, ihc]
      rfl
    · rw [e, ihy]
      show σ.y - body_style.leading -
          (((l2 :: ls).length - 1 : ℕ) : ℚ) * body_style.leading =
        σ.y - (((l :: l2 :: ls).length - 1 : ℕ) : ℚ) * body_style.leading
      simp only [List.length_cons, Nat.add_sub_cancel]
      push_cast
      ring
    · rw [e, ihn]
      rfl

/-- Effect of the inner code drawing loop. -/
theorem code_inner_spec :
    ∀ (subs : List (List Char)) (σ : ComposerState) (yc : ℚ),
      (code_inner (σ, yc) subs).1.pages =
          modifyIdx σ.pages σ.current
            (fun p => ⟨p.commands ++
              text_run (MARGIN + 8) code_style.leading code_style yc subs⟩) ∧
        (code_inner (σ, yc) subs).1.current = σ.current ∧
        (code_inner (σ, yc) subs).1.y = σ.y ∧
        (code_inner (σ, yc) subs).1.page_num = σ.page_num ∧
        (code_inner (σ, yc) subs).2 = yc - subs.length * code_style.leading
  | [], σ, yc => by
    refine ⟨(modifyIdx_cmds_nil σ.pages σ.current).symm, rfl, rfl, rfl, ?_⟩
    show yc = yc - (([] : List (List Char)).length : ℚ) * code_style.leading
    simp
  | sub :: subs, σ, yc => by
    obtain ⟨ihp, ihc, ihy, ihn, ihyc⟩ := code_inner_spec subs
      (draw σ (.text (MARGIN + 8) yc sub code_style)) (yc - code_style.leading)
    have e : code_inner (σ, yc) (sub :: subs) =
        code_inner (draw σ (.text (MARGIN + 8) yc sub code_style),
          yc - code_style.leading) subs := rfl
    refine ⟨?_, ?_, ?_, ?_, ?_⟩
    · rw [e, ihp]
      exact modifyIdx_append_cmds σ.pages σ.current
        [.text (MARGIN + 8) yc sub code_style]
        (text_run (MARGIN + 8) code_style.leading code_style
          (yc - code_style.leading) subs)
    · rw [e, ihc]
      rfl
    · rw [e, ihy]
      rfl
    · rw [e, ihn]
      rfl
    · rw [e, ihyc]
      show yc - code_style.leading - (subs.length : ℚ) * code_style.leading =
        yc - ((sub :: subs).length : ℚ) * code_style.leading
      push_cast [List.length_cons]
      ring

/-- The inner code loop over a concatenation runs the two halves in
sequence. -/
theorem code_inner_append :
    ∀ (a b : List (List Char)) (s : ComposerState × ℚ),
      code_inner s (a ++ b) = code_inner (code_inner s a) b
  | [], b, s => rfl
  | sub :: a, b, (σ, yc) => by
    show code_inner (draw σ (.text (MARGIN + 8) yc sub code_style),
      yc - code_style.leading) (a ++ b) = _
    rw [code_inner_append a b]
    rfl

/-- The outer code loop equals the inner loop over all sublines. -/
theorem code_outer_spec :
    ∀ (lines : List (List Char)) (s : ComposerState × ℚ),
      code_outer s lines = code_inner s (code_sublines lines)
  | [], s => rfl
  | line :: rest, s => by
    show code_outer (code_inner s (code_wrap line)) rest = _
    rw [code_outer_spec rest]
    rw [show code_sublines (line :: rest) =
      code_wrap line ++ code_sublines rest from by simp [code_sublines]]
    rw [code_inner_append]

/-- Closure of the layout invariant under appending clear commands to
the last page. -/
theorem layout_ok_append (σ1 σf : ComposerState) (G : List DrawOp)
    (hwf : σ1.current + 1 = σ1.pages.length)
    (hcm : ∀ d ∈ all_cmds σ1, clear_of_margin d)
    (hG : ∀ d ∈ G, clear_of_margin d)
    (hpages : σf.pages = modifyIdx σ1.pages σ1.current
      fun p => ⟨p.commands ++ G⟩)
    (hcur : σf.current = σ1.current) (hy : 72 ≤ σf.y) :
    layout_ok σf := by
  refine ⟨?_, hy, ?_⟩
  · rw [hcur, hpages, modifyIdx_length]
    exact hwf
  · intro d hd
    simp only [all_cmds, hpages] at hd
    rw [flatten_modifyIdx_last σ1.pages σ1.current G hwf] at hd
    rcases List.mem_append.mp hd with hd | hd
    · exact hcm d hd
    · exact hG d hd

/-- One checked block call preserves the layout invariant, provided it
fits a fresh page. -/
theorem run_op_layout (σ : ComposerState) (op : ComposerOp)
    (hok : layout_ok σ) (hfit : fits_page op) :
    layout_ok (run_op σ op) := by
  obtain ⟨hwf, h72, hcm⟩ := hok
  cases op with
  | newPage => exact hfit.elim
  | spacer a => exact hfit.elim
  | cover t => exact hfit.elim
  | h1 t =>
    obtain ⟨hwf1, hn1, hy1, hcm1⟩ := ensure_space_spec σ (h1_style.leading + 8)
      hwf h72 (by norm_num [h1_style])
    refine layout_ok_append (ensure_space σ (h1_style.leading + 8)) _
      [.text MARGIN (ensure_space σ (h1_style.leading + 8)).y t h1_style] hwf1
      (fun d hd => (hcm1 d hd).elim (hcm d) (chrome_clear _ d)) ?_ rfl rfl ?_
    · intro d hd
      rcases List.mem_singleton.mp hd with rfl
      left
      rw [op_min_y]
      exact hy1
    · show 72 ≤ (ensure_space σ (h1_style.leading + 8)).y - (h1_style.leading + 2)
      linarith [hn1]
  | h2 t =>
    obtain ⟨hwf1, hn1, hy1, hcm1⟩ := ensure_space_spec σ (h2_style.leading + 6)
      hwf h72 (by norm_num [h2_style])
    refine layout_ok_append (ensure_space σ (h2_style.leading + 6)) _
      [.text MARGIN (ensure_space σ (h2_style.leading + 6)).y t h2_style] hwf1
      (fun d hd => (hcm1 d hd).elim (hcm d) (chrome_clear _ d)) ?_ rfl rfl ?_
    · intro d hd
      rcases List.mem_singleton.mp hd with rfl
      left
      rw [op_min_y]
      exact hy1
    · show 72 ≤ (ensure_space σ (h2_style.leading + 6)).y - h2_style.leading
      linarith [hn1]
  | para t st =>
    obtain ⟨hwf1, hn1, hy1, hcm1⟩ := ensure_space_spec σ (para_needed t st)
      hwf h72 hfit
    obtain ⟨hp, hc, hy, hn⟩ := draw_lines_spec (st.getD body_style)
      (para_lines t st) (ensure_space σ (para_needed t st))
    have hmax2 : ((para_lines t st).length : ℚ) * (st.getD body_style).leading
        + 4 ≤ para_needed t st := le_max_right _ _
    refine layout_ok_append (ensure_space σ (para_needed t st)) _
      (text_run MARGIN (st.getD body_style).leading (st.getD body_style)
        (ensure_space σ (para_needed t st)).y (para_lines t st)) hwf1
      (fun d hd => (hcm1 d hd).elim (hcm d) (chrome_clear _ d)) ?_ hp hc ?_
    · intro d hd
      obtain ⟨i, hi, he⟩ := text_run_mem _ _ _ _ _ d hd
      left
      rw [he]
      have hiL : (i : ℚ) + 1 ≤ ((para_lines t st).length : ℚ) := by
        exact_mod_cast Nat.succ_le_of_lt hi
      rcases le_or_lt 0 (st.getD body_style).leading with hl | hl
      · have hmul : (i : ℚ) * (st.getD body_style).leading ≤
            (((para_lines t st).length : ℚ) - 1) * (st.getD body_style).leading :=
          mul_le_mul_of_nonneg_right (by linarith) hl
        nlinarith [hn1]
      · have hmul : (i : ℚ) * (st.getD body_style).leading ≤ 0 :=
          mul_nonpos_of_nonneg_of_nonpos (Nat.cast_nonneg i) hl.le
        linarith [hy1]
    · show 72 ≤ (draw_lines (st.getD body_style)
        (ensure_space σ (para_needed t st)) (para_lines t st)).y - 4
      rw [hy]
      linarith [hn1]
  | bullet t =>
    have hbl : body_style.leading = 15 := rfl
    obtain ⟨hwf1, hn1, hy1, hcm1⟩ := ensure_space_spec σ (bullet_needed t)
      hwf h72 hfit
    obtain ⟨hp, hc, hy, hn⟩ := bullet_loop_spec (bullet_lines_of t)
      (draw (ensure_space σ (bullet_needed t))
        (.text MARGIN (ensure_space σ (bullet_needed t)).y ("-".toList)
          body_style))
    have hmax1 : body_style.leading ≤ bullet_needed t := le_max_left _ _
    have hmax2 : ((bullet_lines_of t).length : ℚ) * body_style.leading + 2 ≤
        bullet_needed t := le_max_right _ _
    refine layout_ok_append (ensure_space σ (bullet_needed t)) _
      ([.text MARGIN (ensure_space σ (bullet_needed t)).y ("-".toList)
          body_style] ++
        text_run (MARGIN + 14) body_style.leading body_style
          (ensure_space σ (bullet_needed t)).y (bullet_lines_of t)) hwf1
      (fun d hd => (hcm1 d hd).elim (hcm d) (chrome_clear _ d)) ?_ ?_ hc ?_
    · intro d hd
      rcases List.mem_append.mp hd with hd | hd
      · rcases List.mem_singleton.mp hd with rfl
        left
        rw [op_min_y]
        exact hy1
      · obtain ⟨i, hi, he⟩ := text_run_mem _ _ _ _ _ d hd
        left
        rw [he, hbl]
        have hiL : (i : ℚ) + 1 ≤ ((bullet_lines_of t).length : ℚ) := by
          exact_mod_cast Nat.succ_le_of_lt hi
        rw [hbl] at hmax2
        linarith [hn1]
    · exact hp.trans (modifyIdx_append_cmds _ _ _ _)
    · show 72 ≤ (bullet_loop
        (draw (ensure_space σ (bullet_needed t))
          (.text MARGIN (ensure_space σ (bullet_needed t)).y ("-".toList)
            body_style)) (bullet_lines_of t)).y - body_style.leading
      rw [hy]
      rcases Nat.eq_zero_or_pos (bullet_lines_of t).length with hz | hpos
      · rw [hz]
        show 72 ≤ (ensure_space σ (bullet_needed t)).y -
          (((0 - 1 : ℕ)) : ℚ) * body_style.leading - body_style.leading
        norm_num [hbl]
        rw [hbl] at hmax1
        linarith [hn1]
      · have hcast : (((bullet_lines_of t).length - 1 : ℕ) : ℚ) =
            ((bullet_lines_of t).length : ℚ) - 1 := by
          push_cast [hpos]
          ring
        show 72 ≤ (ensure_space σ (bullet_needed t)).y -
          (((bullet_lines_of t).length - 1 : ℕ) : ℚ) * body_style.leading -
          body_style.leading
        rw [hcast, hbl]
        rw [hbl] at hmax2
        linarith [hn1]
  | code ls =>
    have hcl : code_style.leading = 13 := rfl
    obtain ⟨hfitn, hsub⟩ := hfit
    obtain ⟨hwf1, hn1, hy1, hcm1⟩ := ensure_space_spec σ (code_needed ls)
      hwf h72 hfitn
    obtain ⟨hp, hc, hy, hn, hyc⟩ := code_inner_spec (code_sublines ls)
      (draw (ensure_space σ (code_needed ls))
        (.rect MARGIN
          ((ensure_space σ (code_needed ls)).y -
            ((8 : ℚ) * 2 + (ls.length : ℚ) * code_style.leading) + 10)
          (PAGE_WIDTH - 2 * MARGIN)
          ((8 : ℚ) * 2 + (ls.length : ℚ) * code_style.leading)
          (93/100, 95/100, 98/100)))
      ((ensure_space σ (code_needed ls)).y - 8)
    have hsubq : ((code_sublines ls).length : ℚ) ≤ (ls.length : ℚ) + 2 := by
      exact_mod_cast hsub
    have hneed : code_needed ls =
        (8 : ℚ) * 2 + (ls.length : ℚ) * code_style.leading + 8 := rfl
    refine layout_ok_append (ensure_space σ (code_needed ls)) _
      ([.rect MARGIN
          ((ensure_space σ (code_needed ls)).y -
            ((8 : ℚ) * 2 + (ls.length : ℚ) * code_style.leading) + 10)
          (PAGE_WIDTH - 2 * MARGIN)
          ((8 : ℚ) * 2 + (ls.length : ℚ) * code_style.leading)
          (93/100, 95/100, 98/100)] ++
        text_run (MARGIN + 8) code_style.leading code_style
          ((ensure_space σ (code_needed ls)).y - 8) (code_sublines ls)) hwf1
      (fun d hd => (hcm1 d hd).elim (hcm d) (chrome_clear _ d)) ?_ ?_ ?_ ?_
    · intro d hd
      rcases List.mem_append.mp hd with hd | hd
      · rcases List.mem_singleton.mp hd with rfl
        left
        rw [op_min_y]
        linarith [hn1, hneed]
      · obtain ⟨i, hi, he⟩ := text_run_mem _ _ _ _ _ d hd
        left
        rw [he, hcl]
        have hiL : (i : ℚ) + 1 ≤ ((code_sublines ls).length : ℚ) := by
          exact_mod_cast Nat.succ_le_of_lt hi
        rw [hcl] at hneed
        linarith [hn1, hneed, hsubq]
    · show (run_op σ (.code ls)).pages = _
      rw [show (run_op σ (.code ls)).pages =
        (code_outer
          (draw (ensure_space σ (code_needed ls))
            (.rect MARGIN
              ((ensure_space σ (code_needed ls)).y -
                ((8 : ℚ) * 2 + (ls.length : ℚ) * code_style.leading) + 10)
              (PAGE_WIDTH - 2 * MARGIN)
              ((8 : ℚ) * 2 + (ls.length : ℚ) * code_style.leading)
              (93/100, 95/100, 98/100)),
            (ensure_space σ (code_needed ls)).y - 8) ls).1.pages from rfl]
      rw [code_outer_spec]
      exact hp.trans (modifyIdx_append_cmds _ _ _ _)
    · show (run_op σ (.code ls)).current = _
      rw [show (run_op σ (.code ls)).current =
        (code_outer
          (draw (ensure_space σ (code_needed ls))
            (.rect MARGIN
              ((ensure_space σ (code_needed ls)).y -
                ((8 : ℚ) * 2 + (ls.length : ℚ) * code_style.leading) + 10)
              (PAGE_WIDTH - 2 * MARGIN)
              ((8 : ℚ) * 2 + (ls.length : ℚ) * code_style.leading)
              (93/100, 95/100, 98/100)),
            (ensure_space σ (code_needed ls)).y - 8) ls).1.current from rfl]
      rw [code_outer_spec, hc]
      rfl
    · show 72 ≤ (ensure_space σ (code_needed ls)).y -
        ((8 : ℚ) * 2 + (ls.length : ℚ) * code_style.leading) + 10 - 10
      linarith [hn1, hneed]

/-- Running checked block calls preserves the layout invariant. -/
theorem run_ops_layout : ∀ (ops : List ComposerOp) (σ : ComposerState),
    layout_ok σ → (∀ op ∈ ops, fits_page op) → layout_ok (run_ops σ ops)
  | [], _, h, _ => h
  | op :: ops, σ, h, hops =>
    run_ops_layout ops (run_op σ op)
      (run_op_layout σ op h (hops op (List.mem_cons_self _ _)))
      (fun o ho => hops o (List.mem_cons_of_mem _ ho))

/-- The fresh composer state satisfies the layout invariant. -/
theorem layout_ok_init : layout_ok init_composer := by
  refine ⟨rfl, ?_, ?_⟩
  · norm_num [init_composer, PAGE_HEIGHT]
  · intro d hd
    simp [all_cmds, init_composer] at hd

/-- C3 (amended): for every sequence of the five checked block calls in
which each block fits a fresh page (needed height at most 636 units and
code blocks gain at most two sublines through re-wrapping), every
command ever drawn stays at or above the 72-unit bottom threshold,
except the footer rule and the page-number label that the chrome of
`new_page` deliberately places below it. -/
theorem composer_blocks_above_margin (ops : List ComposerOp)
    (hops : ∀ op ∈ ops, fits_page op) :
    ∀ d ∈ all_cmds (run_ops init_composer ops),
      72 ≤ op_min_y d ∨ d = footer_rule ∨ ∃ n, d = page_label n :=
  (run_ops_layout ops init_composer layout_ok_init hops).2.2

/-- C3 witness: a single short heading triggers no violation. -/
theorem composer_blocks_above_margin_witness :
    (∀ op ∈ [ComposerOp.h1 ("A".toList)], fits_page op) ∧
      ∀ d ∈ all_cmds (run_ops init_composer [ComposerOp.h1 ("A".toList)]),
        72 ≤ op_min_y d ∨ d = footer_rule ∨ ∃ n, d = page_label n := by
  have hops : ∀ op ∈ [ComposerOp.h1 ("A".toList)], fits_page op := by
    intro op hop
    rcases List.mem_singleton.mp hop with rfl
    trivial
  exact ⟨hops, composer_blocks_above_margin _ hops⟩

/-- Splitting the space-join of nonempty whitespace-free words recovers
the words. -/
theorem splitWs_joinLines : ∀ ws : List (List Char),
    (∀ w ∈ ws, w ≠ [] ∧ ∀ c ∈ w, ¬ c.isWhitespace) →
    splitWs (joinLines ws) = ws
  | [], _ => rfl
  | [w], h =>
    splitWs_single w (h w (List.mem_cons_self _ _)).1
      (h w (List.mem_cons_self _ _)).2
  | w :: w2 :: ws, h => by
    rw [joinLines_cons w _ (by simp)]
    rw [show splitWs (w ++ ' ' :: joinLines (w2 :: ws)) =
      splitWs w ++ splitWs (joinLines (w2 :: ws)) from splitWsAux_space w [] _]
    rw [splitWs_joinLines (w2 :: ws)
      (fun u hu => h u (List.mem_cons_of_mem _ hu))]
    rw [splitWs_single w (h w (List.mem_cons_self _ _)).1
      (h w (List.mem_cons_self _ _)).2]
    rfl

/-- Wrapping identical words that pairwise overflow the capacity puts
every word on its own line. -/
theorem wrapAux_replicate (cap : ℕ) (w : List Char)
    (h : cap < w.length + (w.length + 1)) :
    ∀ k : ℕ, wrapAux cap w (List.replicate k w) = List.replicate (k + 1) w
  | 0 => rfl
  | k + 1 => by
    rw [List.replicate_succ, wrapAux_cons, if_neg (by simp; omega),
      wrapAux_replicate cap w h k]
    simp [List.replicate_succ]

/-- Membership in the flattened command list through one page. -/
theorem mem_all_cmds (σ : ComposerState) (i : ℕ) (p : PageCanvas)
    (d : DrawOp) (hp : σ.pages[i]? = some p) (hd : d ∈ p.commands) :
    d ∈ all_cmds σ := by
  simp only [all_cmds, List.mem_flatten]
  exact ⟨p.commands, List.mem_map_of_mem _ (List.getElem?_mem hp), hd⟩

/-- Shared description of a paragraph call that does not fit the
remaining space: exactly one page is appended, earlier pages are
untouched, and the whole paragraph lands on the new page after the
chrome. -/
theorem add_paragraph_break_spec (σ : ComposerState) (text : List Char)
    (style : Option BlockStyle) (h : σ.y - para_needed text style < 72) :
    (add_paragraph σ text style).pages =
      σ.pages ++ [⟨chrome_cmds (σ.page_num + 1) ++
        text_run MARGIN (style.getD body_style).leading (style.getD body_style)
          (PAGE_HEIGHT - 84) (para_lines text style)⟩] := by
  have he : ensure_space σ (para_needed text style) = new_page σ := by
    rw [ensure_space, if_pos h]
  obtain ⟨hp1, hc1, hy1, hn1⟩ := new_page_spec σ
  obtain ⟨hp2, _, _, _⟩ := draw_lines_spec (style.getD body_style)
    (para_lines text style) (ensure_space σ (para_needed text style))
  rw [show (add_paragraph σ text style).pages =
    (draw_lines (style.getD body_style)
      (ensure_space σ (para_needed text style)) (para_lines text style)).pages
    from rfl]
  rw [hp2, he, hp1, hc1, hy1, modifyIdx_last]

/-- The oversized-paragraph input used by the pagination
counterexample: 44 words of 43 letters each. -/
def big_para_text : List Char :=
  joinLines (List.replicate 44 (List.replicate 43 'a'))

/-- The wrapper puts each of the 44 long words of the counterexample
paragraph on its own line at the body width and size. -/
theorem big_para_lines :
    para_lines big_para_text none = List.replicate 44 (List.replicate 43 'a') := by
  have hw : ∀ w ∈ List.replicate 44 (List.replicate 43 'a'),
      w ≠ [] ∧ ∀ c ∈ w, ¬ c.isWhitespace := by
    intro w hw
    rw [List.eq_of_mem_replicate hw]
    constructor
    · simp
    · intro c hc
      rw [List.eq_of_mem_replicate hc]
      decide
  have hsplit : splitWs big_para_text =
      List.replicate 44 (List.replicate 43 'a') :=
    splitWs_joinLines _ hw
  have hcap : char_capacity (PAGE_WIDTH - 2 * MARGIN) "F1" 11 = 86 := by
    rw [char_capacity, estimate_char_width_F1]
    norm_num [PAGE_WIDTH, MARGIN]
    rfl
  rw [para_lines]
  rw [show (none : Option BlockStyle).getD body_style = body_style from rfl]
  rw [show body_style.font = "F1" from rfl, show body_style.size = 11 from rfl]
  rw [wrap_text_eq_cons big_para_text (List.replicate 43 'a')
    (List.replicate 43 (List.replicate 43 'a')) (PAGE_WIDTH - 2 * MARGIN) "F1" 11
    (by rw [hsplit]; rfl)]
  rw [hcap, wrapAux_replicate 86 (List.replicate 43 'a') (by simp) 43]

/-- C3 counterexample: the pagination claim as stated is false.  A
single default-style paragraph of 44 long words needs 664 units; the
guard opens one fresh page and then draws all 44 lines from cursor 708
downward, so the 44th line lands at height 63, below the 72-unit
threshold, and it is neither the footer rule nor a page-number label. -/
theorem composer_blocks_above_margin_cex :
    ¬ ∀ (ops : List ComposerOp), (∀ op ∈ ops, is_block op = true) →
      ∀ d ∈ all_cmds (run_ops init_composer ops),
        72 ≤ op_min_y d ∨ d = footer_rule ∨ ∃ n, d = page_label n := by
  intro h
  have hneed : para_needed big_para_text none = 664 := by
    rw [para_needed, big_para_lines]
    norm_num [body_style]
  have htrig : init_composer.y - para_needed big_para_text none < 72 := by
    rw [hneed]
    norm_num [init_composer, PAGE_HEIGHT]
  have hpages := add_paragraph_break_spec init_composer big_para_text none htrig
  have hrun : run_ops init_composer [ComposerOp.para big_para_text none] =
      add_paragraph init_composer big_para_text none := rfl
  have hmemline : (DrawOp.text MARGIN
      ((PAGE_HEIGHT - 84) - (43 : ℕ) * body_style.leading)
      (List.replicate 43 'a') body_style) ∈
      text_run MARGIN body_style.leading body_style (PAGE_HEIGHT - 84)
        (para_lines big_para_text none) := by
    refine text_run_mem_of MARGIN body_style.leading body_style _ _ 43
      (List.replicate 43 'a') ?_
    rw [big_para_lines]
    rfl
  have hmem : (DrawOp.text MARGIN
      ((PAGE_HEIGHT - 84) - (43 : ℕ) * body_style.leading)
      (List.replicate 43 'a') body_style) ∈
      all_cmds (run_ops init_composer [ComposerOp.para big_para_text none]) := by
    refine mem_all_cmds _ 1 (⟨chrome_cmds (init_composer.page_num + 1) ++
      text_run MARGIN ((none : Option BlockStyle).getD body_style).leading
        ((none : Option BlockStyle).getD body_style)
        (PAGE_HEIGHT - 84) (para_lines big_para_text none)⟩) _ ?_ ?_
    · rw [hrun, hpages]
      rfl
    · exact List.mem_append.mpr (Or.inr hmemline)
  have hblocks : ∀ op ∈ [ComposerOp.para big_para_text none],
      is_block op = true := by
    intro op hop
    rcases List.mem_singleton.mp hop with rfl
    rfl
  rcases h [ComposerOp.para big_para_text none] hblocks _ hmem with hle | hfr | ⟨n, hn⟩
  · rw [op_min_y] at hle
    norm_num [PAGE_HEIGHT, body_style] at hle
  · simp [footer_rule] at hfr
  · rw [page_label] at hn
    have := (DrawOp.text.injEq _ _ _ _ _ _ _ _).mp hn
    norm_num [MARGIN, PAGE_WIDTH] at this

/-- C5: a call to `add_paragraph` whose needed height does not fit in
the space remaining above the bottom threshold creates exactly one new
page, draws zero lines on the original page (all earlier pages,
including the original current page, are untouched), and appends all of
the paragraph text commands to the new page right after its chrome: a
paragraph never splits across a page break. -/
theorem add_paragraph_page_break (σ : ComposerState) (text : List Char)
    (style : Option BlockStyle)
    (h : σ.y - para_needed text style < 72) :
    (add_paragraph σ text style).pages.length = σ.pages.length + 1 ∧
      (∀ i, i < σ.pages.length →
        (add_paragraph σ text style).pages[i]? = σ.pages[i]?) ∧
      (add_paragraph σ text style).pages[σ.pages.length]? =
        some ⟨chrome_cmds (σ.page_num + 1) ++
          text_run MARGIN (style.getD body_style).leading
            (style.getD body_style) (PAGE_HEIGHT - 84)
            (para_lines text style)⟩ := by
  rw [add_paragraph_break_spec σ text style h]
  refine ⟨by simp, ?_, ?_⟩
  · intro i hi
    rw [List.getElem?_append, if_pos hi]
  · rw [List.getElem?_append, if_neg (lt_irrefl _), Nat.sub_self]
    rfl

/-- Single-line evaluation of a short paragraph used by the witness. -/
theorem para_lines_hi : para_lines ("hi".toList) none = [("hi".toList)] := by
  rw [para_lines,
    show (none : Option BlockStyle).getD body_style = body_style from rfl,
    show body_style.font = "F1" from rfl,
    show body_style.size = 11 from rfl,
    wrap_text_eq_cons ("hi".toList) ("hi".toList) []
      (PAGE_WIDTH - 2 * MARGIN) "F1" 11 (by decide)]
  rfl

/-- C5 witness: on a page with 80 units of cursor left, a one-line
default paragraph (needed height 19) triggers the break. -/
theorem add_paragraph_page_break_witness :
    (({ pages := [⟨[]⟩], current := 0, y := 80, page_num := 1 } :
        ComposerState).y - para_needed ("hi".toList) none < 72) ∧
      (add_paragraph
          { pages := [⟨[]⟩], current := 0, y := 80, page_num := 1 }
          ("hi".toList) none).pages.length =
        ({ pages := [⟨[]⟩], current := 0, y := 80, page_num := 1 } :
          ComposerState).pages.length + 1 := by
  have hh : ({ pages := [⟨[]⟩], current := 0, y := 80, page_num := 1 } :
      ComposerState).y - para_needed ("hi".toList) none < 72 := by
    rw [para_needed, para_lines_hi]
    norm_num [body_style]
  exact ⟨hh, (add_paragraph_page_break _ ("hi".toList) none hh).1⟩

/-- The pagination guard keeps the current page last. -/
theorem ensure_space_wf (σ : ComposerState) (needed : ℚ)
    (hwf : σ.current + 1 = σ.pages.length) :
    (ensure_space σ needed).current + 1 =
      (ensure_space σ needed).pages.length := by
  rw [ensure_space]
  by_cases h : σ.y - needed < 72
  · rw [if_pos h]
    obtain ⟨hp, hc, _, _⟩ := new_page_spec σ
    rw [hp, hc]
    simp
  · rw [if_neg h]
    exact hwf

/-- C6 (amended): each heading call draws its text as one positioned
text run with no wrapping, appending exactly one text command with the
unmodified input; `add_h1` advances the cursor by its line height plus
the fixed positive gap 2, while `add_h2` advances by exactly its line
height, with no extra gap. -/
theorem add_heading_spec (σ : ComposerState) (t : List Char)
    (hwf : σ.current + 1 = σ.pages.length) :
    (all_cmds (add_h1 σ t) =
        all_cmds (ensure_space σ (h1_style.leading + 8)) ++
          [DrawOp.text MARGIN (ensure_space σ (h1_style.leading + 8)).y t
            h1_style] ∧
      (add_h1 σ t).y =
        (ensure_space σ (h1_style.leading + 8)).y - (h1_style.leading + 2)) ∧
    (all_cmds (add_h2 σ t) =
        all_cmds (ensure_space σ (h2_style.leading + 6)) ++
          [DrawOp.text MARGIN (ensure_space σ (h2_style.leading + 6)).y t
            h2_style] ∧
      (add_h2 σ t).y =
        (ensure_space σ (h2_style.leading + 6)).y - h2_style.leading) := by
  refine ⟨⟨?_, rfl⟩, ⟨?_, rfl⟩⟩
  · rw [show all_cmds (add_h1 σ t) =
      all_cmds (draw (ensure_space σ (h1_style.leading + 8))
        (.text MARGIN (ensure_space σ (h1_style.leading + 8)).y t h1_style))
      from rfl]
    exact all_cmds_draw _ _ (ensure_space_wf σ (h1_style.leading + 8) hwf)
  · rw [show all_cmds (add_h2 σ t) =
      all_cmds (draw (ensure_space σ (h2_style.leading + 6))
        (.text MARGIN (ensure_space σ (h2_style.leading + 6)).y t h2_style))
      from rfl]
    exact all_cmds_draw _ _ (ensure_space_wf σ (h2_style.leading + 6) hwf)

/-- C6 witness: the cursor advances of the two headings on the fresh
composer state. -/
theorem add_heading_spec_witness :
    ((add_h1 init_composer ("A".toList)).y =
        (ensure_space init_composer (h1_style.leading + 8)).y -
          (h1_style.leading + 2)) ∧
      ((add_h2 init_composer ("A".toList)).y =
        (ensure_space init_composer (h2_style.leading + 6)).y -
          h2_style.leading) :=
  ⟨(add_heading_spec init_composer ("A".toList) rfl).1.2,
   (add_heading_spec init_composer ("A".toList) rfl).2.2⟩

/-- C6 counterexample: `add_h2` advances the cursor by exactly its line
height; no positive gap exists, so the claim that both headings advance
by line height plus a fixed positive gap is false. -/
theorem add_h2_no_gap_cex :
    (add_h2 init_composer ("A".toList)).y =
        init_composer.y - h2_style.leading ∧
      ¬ ∃ g : ℚ, 0 < g ∧ (add_h2 init_composer ("A".toList)).y =
        init_composer.y - (h2_style.leading + g) := by
  have hens : ensure_space init_composer (h2_style.leading + 6) =
      init_composer := by
    rw [ensure_space,
      if_neg (by norm_num [init_composer, PAGE_HEIGHT, h2_style])]
  have hy : (add_h2 init_composer ("A".toList)).y =
      init_composer.y - h2_style.leading := by
    rw [show (add_h2 init_composer ("A".toList)).y =
      (ensure_space init_composer (h2_style.leading + 6)).y - h2_style.leading
      from rfl, hens]
  refine ⟨hy, ?_⟩
  rintro ⟨g, hg, he⟩
  rw [hy] at he
  have hg0 : g = 0 := by linarith
  rw [hg0] at hg
  exact lt_irrefl 0 hg

/-! Helper lemmas for the page-list invariant. -/

theorem pages_extend_refl (l : List PageCanvas) : pages_extend l l :=
  ⟨le_refl _, fun i p hp => ⟨p, [], hp, by simp⟩⟩

theorem pages_extend_trans {a b c : List PageCanvas}
    (h1 : pages_extend a b) (h2 : pages_extend b c) : pages_extend a c := by
  refine ⟨le_trans h1.1 h2.1, fun i p hp => ?_⟩
  obtain ⟨p1, t1, hp1, he1⟩ := h1.2 i p hp
  obtain ⟨p2, t2, hp2, he2⟩ := h2.2 i p1 hp1
  exact ⟨p2, t1 ++ t2, hp2, by rw [he2, he1, List.append_assoc]⟩

theorem pages_extend_modify (l : List PageCanvas) (j : ℕ) (g : List DrawOp) :
    pages_extend l (modifyIdx l j fun p => ⟨p.commands ++ g⟩) := by
  refine ⟨by rw [modifyIdx_length], fun i p hp => ?_⟩
  rw [modifyIdx_getElem?]
  by_cases hij : i = j
  · rw [if_pos hij, hp]
    exact ⟨⟨p.commands ++ g⟩, g, rfl, rfl⟩
  · rw [if_neg hij]
    exact ⟨p, [], hp, by simp⟩

theorem pages_extend_append (l : List PageCanvas) (x : PageCanvas) :
    pages_extend l (l ++ [x]) := by
  refine ⟨by simp, fun i p hp => ⟨p, [], ?_, by simp⟩⟩
  have hi : i < l.length := by
    rcases List.getElem?_eq_some.mp hp with ⟨h, _⟩
    exact h
  rw [List.getElem?_append, if_pos hi]
  exact hp

theorem ensure_space_pages_extend (σ : ComposerState) (needed : ℚ) :
    pages_extend σ.pages (ensure_space σ needed).pages := by
  rw [ensure_space]
  by_cases h : σ.y - needed < 72
  · rw [if_pos h, (new_page_spec σ).1]
    exact pages_extend_append _ _
  · rw [if_neg h]
    exact pages_extend_refl _

/-- The pagination guard preserves composer well-formedness. -/
theorem composer_wf_ensure (σ : ComposerState) (needed : ℚ)
    (hwf : composer_wf σ) : composer_wf (ensure_space σ needed) := by
  rw [ensure_space]
  by_cases h : σ.y - needed < 72
  · rw [if_pos h]
    obtain ⟨hp, hc, _, hn⟩ := new_page_spec σ
    constructor
    · rw [hp, hc]; simp
    · rw [hp, hn, hwf.2]; simp
  · rw [if_neg h]
    exact hwf

/-- Well-formedness follows from matching fields over a well-formed
state. -/
theorem composer_wf_of_fields (σf σ1 : ComposerState) (hwf : composer_wf σ1)
    (hc : σf.current = σ1.current) (hn : σf.page_num = σ1.page_num)
    (hl : σf.pages.length = σ1.pages.length) : composer_wf σf :=
  ⟨by rw [hc, hl]; exact hwf.1, by rw [hn, hl]; exact hwf.2⟩

/-- Every public composer call only ever appends, to the page list and
to the commands of existing pages. -/
theorem run_op_pages_extend (σ : ComposerState) (op : ComposerOp) :
    pages_extend σ.pages (run_op σ op).pages := by
  cases op with
  | newPage =>
    rw [show (run_op σ .newPage).pages = (new_page σ).pages from rfl,
      (new_page_spec σ).1]
    exact pages_extend_append _ _
  | spacer a => exact pages_extend_refl _
  | cover t =>
    rw [show (run_op σ (.cover t)).pages =
      ((cover_cmds t).foldl draw σ).pages from rfl,
      (foldl_draw_spec (cover_cmds t) σ).1]
    exact pages_extend_modify _ _ _
  | h1 t =>
    refine pages_extend_trans
      (ensure_space_pages_extend σ (h1_style.leading + 8)) ?_
    exact pages_extend_modify (ensure_space σ (h1_style.leading + 8)).pages
      (ensure_space σ (h1_style.leading + 8)).current
      [.text MARGIN (ensure_space σ (h1_style.leading + 8)).y t h1_style]
  | h2 t =>
    refine pages_extend_trans
      (ensure_space_pages_extend σ (h2_style.leading + 6)) ?_
    exact pages_extend_modify (ensure_space σ (h2_style.leading + 6)).pages
      (ensure_space σ (h2_style.leading + 6)).current
      [.text MARGIN (ensure_space σ (h2_style.leading + 6)).y t h2_style]
  | para t st =>
    refine pages_extend_trans
      (ensure_space_pages_extend σ (para_needed t st)) ?_
    rw [show (run_op σ (.para t st)).pages =
      (draw_lines (st.getD body_style) (ensure_space σ (para_needed t st))
        (para_lines t st)).pages from rfl,
      (draw_lines_spec (st.getD body_style) (para_lines t st)
        (ensure_space σ (para_needed t st))).1]
    exact pages_extend_modify _ _ _
  | bullet t =>
    refine pages_extend_trans
      (ensure_space_pages_extend σ (bullet_needed t)) ?_
    refine pages_extend_trans (b :=
      (draw (ensure_space σ (bullet_needed t))
        (.text MARGIN (ensure_space σ (bullet_needed t)).y ("-".toList)
          body_style)).pages) ?_ ?_
    · exact pages_extend_modify _ _ _
    · rw [show (run_op σ (.bullet t)).pages =
        (bullet_loop (draw (ensure_space σ (bullet_needed t))
          (.text MARGIN (ensure_space σ (bullet_needed t)).y ("-".toList)
            body_style)) (bullet_lines_of t)).pages from rfl,
        (bullet_loop_spec (bullet_lines_of t)
          (draw (ensure_space σ (bullet_needed t))
            (.text MARGIN (ensure_space σ (bullet_needed t)).y ("-".toList)
              body_style))).1]
      exact pages_extend_modify _ _ _
  | code ls =>
    refine pages_extend_trans
      (ensure_space_pages_extend σ (code_needed ls)) ?_
    refine pages_extend_trans (b :=
      (draw (ensure_space σ (code_needed ls))
        (.rect MARGIN
          ((ensure_space σ (code_needed ls)).y -
            ((8 : ℚ) * 2 + (ls.length : ℚ) * code_style.leading) + 10)
          (PAGE_WIDTH - 2 * MARGIN)
          ((8 : ℚ) * 2 + (ls.length : ℚ) * code_style.leading)
          (93/100, 95/100, 98/100))).pages) ?_ ?_
    · exact pages_extend_modify _ _ _
    · rw [show (run_op σ (.code ls)).pages =
        (code_outer
          (draw (ensure_space σ (code_needed ls))
            (.rect MARGIN
              ((ensure_space σ (code_needed ls)).y -
                ((8 : ℚ) * 2 + (ls.length : ℚ) * code_style.leading) + 10)
              (PAGE_WIDTH - 2 * MARGIN)
              ((8 : ℚ) * 2 + (ls.length : ℚ) * code_style.leading)
              (93/100, 95/100, 98/100)),
            (ensure_space σ (code_needed ls)).y - 8) ls).1.pages from rfl,
        code_outer_spec,
        (code_inner_spec (code_sublines ls)
          (draw (ensure_space σ (code_needed ls))
            (.rect MARGIN
              ((ensure_space σ (code_needed ls)).y -
                ((8 : ℚ) * 2 + (ls.length : ℚ) * code_style.leading) + 10)
              (PAGE_WIDTH - 2 * MARGIN)
              ((8 : ℚ) * 2 + (ls.length : ℚ) * code_style.leading)
              (93/100, 95/100, 98/100)))
          ((ensure_space σ (code_needed ls)).y - 8)).1]
      exact pages_extend_modify _ _ _

/-- Every public composer call preserves composer well-formedness. -/
theorem run_op_wf (σ : ComposerState) (op : ComposerOp)
    (hwf : composer_wf σ) : composer_wf (run_op σ op) := by
  cases op with
  | newPage =>
    obtain ⟨hp, hc, _, hn⟩ := new_page_spec σ
    constructor
    · rw [show (run_op σ .newPage).current = (new_page σ).current from rfl,
        show (run_op σ .newPage).pages = (new_page σ).pages from rfl, hc, hp]
      simp
    · rw [show (run_op σ .newPage).page_num = (new_page σ).page_num from rfl,
        show (run_op σ .newPage).pages = (new_page σ).pages from rfl, hn, hp,
        hwf.2]
      simp
  | spacer a => exact hwf
  | cover t =>
    obtain ⟨hp, hc, _, hn⟩ := foldl_draw_spec (cover_cmds t) σ
    refine composer_wf_of_fields _ σ hwf hc hn ?_
    rw [show (run_op σ (.cover t)).pages =
      ((cover_cmds t).foldl draw σ).pages from rfl, hp, modifyIdx_length]
  | h1 t =>
    refine composer_wf_of_fields _
      (ensure_space σ (h1_style.leading + 8))
      (composer_wf_ensure σ _ hwf) rfl rfl ?_
    rw [show (run_op σ (.h1 t)).pages =
      modifyIdx (ensure_space σ (h1_style.leading + 8)).pages
        (ensure_space σ (h1_style.leading + 8)).current
        (fun p => ⟨p.commands ++
          [.text MARGIN (ensure_space σ (h1_style.leading + 8)).y t
            h1_style]⟩) from rfl, modifyIdx_length]
  | h2 t =>
    refine composer_wf_of_fields _
      (ensure_space σ (h2_style.leading + 6))
      (composer_wf_ensure σ _ hwf) rfl rfl ?_
    rw [show (run_op σ (.h2 t)).pages =
      modifyIdx (ensure_space σ (h2_style.leading + 6)).pages
        (ensure_space σ (h2_style.leading + 6)).current
        (fun p => ⟨p.commands ++
          [.text MARGIN (ensure_space σ (h2_style.leading + 6)).y t
            h2_style]⟩) from rfl, modifyIdx_length]
  | para t st =>
    obtain ⟨hp, hc, _, hn⟩ := draw_lines_spec (st.getD body_style)
      (para_lines t st) (ensure_space σ (para_needed t st))
    refine composer_wf_of_fields _
      (ensure_space σ (para_needed t st))
      (composer_wf_ensure σ _ hwf) hc hn ?_
    rw [show (run_op σ (.para t st)).pages =
      (draw_lines (st.getD body_style) (ensure_space σ (para_needed t st))
        (para_lines t st)).pages from rfl, hp, modifyIdx_length]
  | bullet t =>
    obtain ⟨hp, hc, _, hn⟩ := bullet_loop_spec (bullet_lines_of t)
      (draw (ensure_space σ (bullet_needed t))
        (.text MARGIN (ensure_space σ (bullet_needed t)).y ("-".toList)
          body_style))
    have hwf2 : composer_wf (draw (ensure_space σ (bullet_needed t))
        (.text MARGIN (ensure_space σ (bullet_needed t)).y ("-".toList)
          body_style)) := by
      refine composer_wf_of_fields _
        (ensure_space σ (bullet_needed t))
        (composer_wf_ensure σ _ hwf) rfl rfl ?_
      rw [show (draw (ensure_space σ (bullet_needed t))
        (.text MARGIN (ensure_space σ (bullet_needed t)).y ("-".toList)
          body_style)).pages =
        modifyIdx (ensure_space σ (bullet_needed t)).pages
          (ensure_space σ (bullet_needed t)).current
          (fun p => ⟨p.commands ++
            [.text MARGIN (ensure_space σ (bullet_needed t)).y ("-".toList)
              body_style]⟩) from rfl, modifyIdx_length]
    refine composer_wf_of_fields _ _ hwf2 hc hn ?_
    rw [show (run_op σ (.bullet t)).pages =
      (bullet_loop (draw (ensure_space σ (bullet_needed t))
        (.text MARGIN (ensure_space σ (bullet_needed t)).y ("-".toList)
          body_style)) (bullet_lines_of t)).pages from rfl, hp,
      modifyIdx_length]
  | code ls =>
    obtain ⟨hp, hc, _, hn, _⟩ := code_inner_spec (code_sublines ls)
      (draw (ensure_space σ (code_needed ls))
        (.rect MARGIN
          ((ensure_space σ (code_needed ls)).y -
            ((8 : ℚ) * 2 + (ls.length : ℚ) * code_style.leading) + 10)
          (PAGE_WIDTH - 2 * MARGIN)
          ((8 : ℚ) * 2 + (ls.length : ℚ) * code_style.leading)
          (93/100, 95/100, 98/100)))
      ((ensure_space σ (code_needed ls)).y - 8)
    have hwf2 : composer_wf (draw (ensure_space σ (code_needed ls))
        (.rect MARGIN
          ((ensure_space σ (code_needed ls)).y -
            ((8 : ℚ) * 2 + (ls.length : ℚ) * code_style.leading) + 10)
          (PAGE_WIDTH - 2 * MARGIN)
          ((8 : ℚ) * 2 + (ls.length : ℚ) * code_style.leading)
          (93/100, 95/100, 98/100))) := by
      refine composer_wf_of_fields _
        (ensure_space σ (code_needed ls))
        (composer_wf_ensure σ _ hwf) rfl rfl ?_
      rw [show (draw (ensure_space σ (code_needed ls))
        (.rect MARGIN
          ((ensure_space σ (code_needed ls)).y -
            ((8 : ℚ) * 2 + (ls.length : ℚ) * code_style.leading) + 10)
          (PAGE_WIDTH - 2 * MARGIN)
          ((8 : ℚ) * 2 + (ls.length : ℚ) * code_style.leading)
          (93/100, 95/100, 98/100))).pages =
        modifyIdx (ensure_space σ (code_needed ls)).pages
          (ensure_space σ (code_needed ls)).current
          (fun p => ⟨p.commands ++
            [.rect MARGIN
              ((ensure_space σ (code_needed ls)).y -
                ((8 : ℚ) * 2 + (ls.length : ℚ) * code_style.leading) + 10)
              (PAGE_WIDTH - 2 * MARGIN)
              ((8 : ℚ) * 2 + (ls.length : ℚ) * code_style.leading)
              (93/100, 95/100, 98/100)]⟩) from rfl, modifyIdx_length]
    refine composer_wf_of_fields _ _ hwf2 ?_ ?_ ?_
    · rw [show (run_op σ (.code ls)).current =
        (code_outer
          (draw (ensure_space σ (code_needed ls))
            (.rect MARGIN
              ((ensure_space σ (code_needed ls)).y -
                ((8 : ℚ) * 2 + (ls.length : ℚ) * code_style.leading) + 10)
              (PAGE_WIDTH - 2 * MARGIN)
              ((8 : ℚ) * 2 + (ls.length : ℚ) * code_style.leading)
              (93/100, 95/100, 98/100)),
            (ensure_space σ (code_needed ls)).y - 8) ls).1.current from rfl,
        code_outer_spec, hc]
    · rw [show (run_op σ (.code ls)).page_num =
        (code_outer
          (draw (ensure_space σ (code_needed ls))
            (.rect MARGIN
              ((ensure_space σ (code_needed ls)).y -
                ((8 : ℚ) * 2 + (ls.length : ℚ) * code_style.leading) + 10)
              (PAGE_WIDTH - 2 * MARGIN)
              ((8 : ℚ) * 2 + (ls.length : ℚ) * code_style.leading)
              (93/100, 95/100, 98/100)),
            (ensure_space σ (code_needed ls)).y - 8) ls).1.page_num from rfl,
        code_outer_spec, hn]
    · rw [show (run_op σ (.code ls)).pages =
        (code_outer
          (draw (ensure_space σ (code_needed ls))
            (.rect MARGIN
              ((ensure_space σ (code_needed ls)).y -
                ((8 : ℚ) * 2 + (ls.length : ℚ) * code_style.leading) + 10)
              (PAGE_WIDTH - 2 * MARGIN)
              ((8 : ℚ) * 2 + (ls.length : ℚ) * code_style.leading)
              (93/100, 95/100, 98/100)),
            (ensure_space σ (code_needed ls)).y - 8) ls).1.pages from rfl,
        code_outer_spec, hp, modifyIdx_length]

/-- C9: after construction and after every public operation, the
current page is the last element of the page list, the page counter
equals the page count, and the page list only ever grows by appending:
previously created pages are never removed, replaced or reordered, and
their commands are preserved as prefixes. -/
theorem composer_pages_invariant :
    composer_wf init_composer ∧
      ∀ (σ : ComposerState) (op : ComposerOp), composer_wf σ →
        composer_wf (run_op σ op) ∧
          σ.pages.length ≤ (run_op σ op).pages.length ∧
          ∀ (i : ℕ) (p : PageCanvas), σ.pages[i]? = some p →
            ∃ (p' : PageCanvas) (t : List DrawOp),
              (run_op σ op).pages[i]? = some p' ∧
                p'.commands = p.commands ++ t :=
  ⟨⟨rfl, rfl⟩, fun σ op hwf =>
    ⟨run_op_wf σ op hwf, (run_op_pages_extend σ op).1,
      (run_op_pages_extend σ op).2⟩⟩

/-- C9 witness: the invariant holds across a `new_page` call on the
fresh composer. -/
theorem composer_pages_invariant_witness :
    composer_wf (run_op init_composer .newPage) ∧
      init_composer.pages.length ≤
        (run_op init_composer .newPage).pages.length :=
  ⟨(composer_pages_invariant.2 init_composer .newPage
      composer_pages_invariant.1).1,
    (composer_pages_invariant.2 init_composer .newPage
      composer_pages_invariant.1).2.1⟩

/-! Helper lemmas for the serializer. -/

theorem encodeStr_append (a b : String) :
    encodeStr (a ++ b) = encodeStr a ++ encodeStr b := by
  simp [encodeStr]

/-- The emission loop appends the serialized blocks to the buffer. -/
theorem emit_loop_fst : ∀ (objs : List (List ℕ)) (out : List ℕ) (id : ℕ),
    (emit_loop out id objs).1 = out ++ emit_blocks id objs
  | [], out, id => by simp [emit_loop, emit_blocks]
  | obj :: objs, out, id => by
    show (emit_loop (out ++ obj_block id obj) (id + 1) objs).1 = _
    rw [emit_loop_fst objs (out ++ obj_block id obj) (id + 1),
      List.append_assoc]
    rfl

/-- One offset is recorded per object. -/
theorem emit_loop_snd_length : ∀ (objs : List (List ℕ)) (out : List ℕ)
    (id : ℕ), (emit_loop out id objs).2.length = objs.length
  | [], _, _ => rfl
  | obj :: objs, out, id => by
    show ((emit_loop (out ++ obj_block id obj) (id + 1) objs).2.length) + 1 = _
    rw [emit_loop_snd_length objs (out ++ obj_block id obj) (id + 1)]
    rfl

/-- The offset recorded for the `j`-th object is the length of the
prefix written before its block. -/
theorem emit_loop_offsets : ∀ (objs : List (List ℕ)) (out : List ℕ)
    (id j : ℕ) (obj : List ℕ), objs[j]? = some obj →
    ∃ pre tail : List ℕ,
      (emit_loop out id objs).2[j]? = some pre.length ∧
      (emit_loop out id objs).1 = pre ++ obj_block (id + j) obj ++ tail
  | [], out, id, j, obj => by simp
  | o :: objs, out, id, 0, obj => by
    intro h
    simp only [List.getElem?_cons_zero, Option.some_inj] at h
    subst h
    refine ⟨out, emit_blocks (id + 1) objs, ?_, ?_⟩
    · rw [show (emit_loop out id (o :: objs)).2 =
        out.length :: (emit_loop (out ++ obj_block id o) (id + 1) objs).2
        from rfl]
      rw [List.getElem?_cons_zero]
    · show (emit_loop (out ++ obj_block id o) (id + 1) objs).1 = _
      rw [emit_loop_fst objs (out ++ obj_block id o) (id + 1),
        List.append_assoc]
      simp
  | o :: objs, out, id, j + 1, obj => by
    intro h
    simp only [List.getElem?_cons_succ] at h
    obtain ⟨pre, tail, h1, h2⟩ :=
      emit_loop_offsets objs (out ++ obj_block id o) (id + 1) j obj h
    refine ⟨pre, tail, ?_, ?_⟩
    · rw [show (emit_loop out id (o :: objs)).2 =
        out.length :: (emit_loop (out ++ obj_block id o) (id + 1) objs).2
        from rfl]
      rw [List.getElem?_cons_succ]
      exact h1
    · show (emit_loop (out ++ obj_block id o) (id + 1) objs).1 =
        pre ++ obj_block (id + (j + 1)) obj ++ tail
      rw [h2, show id + 1 + j = id + (j + 1) from by omega]

/-- Setting the slot right after a prefix replaces exactly that slot. -/
theorem list_set_append (pre : List (List ℕ)) (x y : List ℕ)
    (l : List (List ℕ)) : (pre ++ x :: l).set pre.length y = pre ++ y :: l := by
  induction pre with
  | nil => rfl
  | cons p pre ih => simp [List.set, ih]

/-- Effect of the content-object placement loop on a prepared table. -/
theorem place_contents_eq : ∀ (streams : List (List ℕ)) (idx : ℕ)
    (pre post : List (List ℕ)), pre.length = 4 + idx - 1 →
    place_contents (pre ++ List.replicate streams.length [] ++ post) idx
        streams =
      pre ++ streams.map stream_object ++ post
  | [], idx, pre, post, h => by simp [place_contents]
  | s :: streams, idx, pre, post, h => by
    show place_contents
      ((pre ++ List.replicate (s :: streams).length [] ++ post).set
        (4 + idx - 1) (stream_object s)) (idx + 1) streams = _
    simp only [List.length_cons]
    rw [List.replicate_succ]
    rw [show pre ++ (([] : List ℕ) :: List.replicate streams.length []) ++
        post = pre ++ ([] : List ℕ) ::
          (List.replicate streams.length [] ++ post) from by simp]
    rw [show (4 + idx - 1) = pre.length from h.symm]
    rw [list_set_append pre [] (stream_object s)
      (List.replicate streams.length [] ++ post)]
    rw [show pre ++ stream_object s ::
        (List.replicate streams.length [] ++ post) =
      (pre ++ [stream_object s]) ++ List.replicate streams.length [] ++ post
      from by simp]
    rw [place_contents_eq streams (idx + 1) (pre ++ [stream_object s]) post
      (by simp [h]; omega)]
    simp

/-- Effect of the page-dictionary placement loop on a prepared table. -/
theorem place_pages_eq (first_page pages_obj : ℕ) (hfp : 1 ≤ first_page) :
    ∀ (k idx : ℕ) (pre post : List (List ℕ)),
      pre.length = first_page + idx - 1 →
      place_pages first_page pages_obj
          (pre ++ List.replicate k [] ++ post) idx k =
        pre ++ (List.range k).map
          (fun i => page_object pages_obj (4 + idx + i)) ++ post
  | 0, idx, pre, post, h => by simp [place_pages]
  | k + 1, idx, pre, post, h => by
    show place_pages first_page pages_obj
      ((pre ++ List.replicate (k + 1) [] ++ post).set
        (first_page + idx - 1) (page_object pages_obj (4 + idx)))
      (idx + 1) k = _
    rw [List.replicate_succ]
    rw [show pre ++ (([] : List ℕ) :: List.replicate k []) ++ post =
      pre ++ ([] : List ℕ) :: (List.replicate k [] ++ post) from by simp]
    rw [show (first_page + idx - 1) = pre.length from h.symm]
    rw [list_set_append pre [] (page_object pages_obj (4 + idx))
      (List.replicate k [] ++ post)]
    rw [show pre ++ page_object pages_obj (4 + idx) ::
        (List.replicate k [] ++ post) =
      (pre ++ [page_object pages_obj (4 + idx)]) ++ List.replicate k [] ++
        post from by simp]
    rw [place_pages_eq first_page pages_obj hfp k (idx + 1)
      (pre ++ [page_object pages_obj (4 + idx)]) post
      (by simp [h]; omega)]
    rw [List.range_succ_eq_map, List.map_cons, List.map_map, Nat.add_zero]
    have hmap : (List.range k).map
        ((fun i => page_object pages_obj (4 + idx + i)) ∘ Nat.succ) =
        (List.range k).map
          (fun i => page_object pages_obj (4 + (idx + 1) + i)) := by
      refine List.map_congr_left ?_
      intro a _
      simp only [Function.comp]
      exact congrArg (page_object pages_obj) (by omega)
    rw [hmap]
    simp

/-- Structural description of the object table: fonts at identifiers
1 to 3, the content objects in page order, the page dictionaries in the
same order, the pages tree and finally the catalog, with object
identifier `i` stored at index `i - 1`. -/
theorem pdf_objects_eq (streams : List (List ℕ)) :
    pdf_objects streams =
      [font_regular, font_bold, font_code] ++ streams.map stream_object ++
        (List.range streams.length).map
          (fun idx =>
            page_object (4 + streams.length + streams.length) (4 + idx)) ++
        [pages_tree_object
          ((List.range streams.length).map
            fun idx => 4 + streams.length + idx) streams.length,
          catalog_object (4 + streams.length + streams.length)] := by
  have e : pdf_objects streams =
      ((place_pages (4 + streams.length)
          (4 + streams.length + streams.length)
          (place_contents
            ((((List.replicate (4 + streams.length + streams.length + 1)
              ([] : List ℕ)).set 0 font_regular).set 1 font_bold).set 2
                font_code)
            0 streams)
          0 streams.length).set
        (4 + streams.length + streams.length - 1)
        (pages_tree_object
          ((List.range streams.length).map
            fun idx => 4 + streams.length + idx) streams.length)).set
        (4 + streams.length + streams.length + 1 - 1)
        (catalog_object (4 + streams.length + streams.length)) := rfl
  rw [e]
  have hrep : List.replicate (4 + streams.length + streams.length + 1)
      ([] : List ℕ) =
      ([] : List ℕ) :: ([] : List ℕ) :: ([] : List ℕ) ::
        (List.replicate streams.length ([] : List ℕ) ++
          (List.replicate streams.length ([] : List ℕ) ++
            List.replicate 2 ([] : List ℕ))) := by
    rw [show 4 + streams.length + streams.length + 1 =
      ((streams.length + (streams.length + 2)) + 1 + 1 + 1) from by omega]
    rw [List.replicate_succ, List.replicate_succ, List.replicate_succ,
      List.replicate_add, List.replicate_add]
  rw [hrep]
  rw [show ((((([] : List ℕ) :: ([] : List ℕ) :: ([] : List ℕ) ::
      (List.replicate streams.length ([] : List ℕ) ++
        (List.replicate streams.length ([] : List ℕ) ++
          List.replicate 2 ([] : List ℕ)))).set 0 font_regular).set 1
            font_bold).set 2 font_code) =
    [font_regular, font_bold, font_code] ++
      List.replicate streams.length ([] : List ℕ) ++
        (List.replicate streams.length ([] : List ℕ) ++
          List.replicate 2 ([] : List ℕ)) from by simp [List.set]]
  rw [place_contents_eq streams 0 [font_regular, font_bold, font_code]
    (List.replicate streams.length ([] : List ℕ) ++
      List.replicate 2 ([] : List ℕ)) rfl]
  rw [show [font_regular, font_bold, font_code] ++
      streams.map stream_object ++
      (List.replicate streams.length ([] : List ℕ) ++
        List.replicate 2 ([] : List ℕ)) =
    ([font_regular, font_bold, font_code] ++ streams.map stream_object) ++
      List.replicate streams.length ([] : List ℕ) ++
        List.replicate 2 ([] : List ℕ) from by simp]
  rw [place_pages_eq (4 + streams.length)
    (4 + streams.length + streams.length) (by omega) streams.length 0
    ([font_regular, font_bold, font_code] ++ streams.map stream_object)
    (List.replicate 2 ([] : List ℕ)) (by simp; omega)]
  rw [List.map_congr_left
    (g := fun i => page_object (4 + streams.length + streams.length) (4 + i))
    (fun i _ => congrArg
      (page_object (4 + streams.length + streams.length)) (by omega))]
  have hA : (([font_regular, font_bold, font_code] ++
      streams.map stream_object) ++
      (List.range streams.length).map
        (fun i => page_object (4 + streams.length + streams.length)
          (4 + i))).length = 3 + streams.length + streams.length := by
    simp
    omega
  rw [show (List.replicate 2 ([] : List ℕ)) =
    ([] : List ℕ) :: ([] : List ℕ) :: [] from rfl]
  rw [show (4 + streams.length + streams.length - 1) =
    (([font_regular, font_bold, font_code] ++ streams.map stream_object) ++
      (List.range streams.length).map
        (fun i => page_object (4 + streams.length + streams.length)
          (4 + i))).length from by rw [hA]; omega]
  rw [list_set_append _ ([] : List ℕ) _ [([] : List ℕ)]]
  rw [show (([font_regular, font_bold, font_code] ++
      streams.map stream_object) ++
      (List.range streams.length).map
        (fun i => page_object (4 + streams.length + streams.length)
          (4 + i))) ++
      pages_tree_object
        ((List.range streams.length).map
          fun idx => 4 + streams.length + idx) streams.length ::
        [([] : List ℕ)] =
    ((([font_regular, font_bold, font_code] ++ streams.map stream_object) ++
      (List.range streams.length).map
        (fun i => page_object (4 + streams.length + streams.length)
          (4 + i))) ++
      [pages_tree_object
        ((List.range streams.length).map
          fun idx => 4 + streams.length + idx) streams.length]) ++
      ([] : List ℕ) :: [] from by simp]
  rw [show (4 + streams.length + streams.length + 1 - 1) =
    ((([font_regular, font_bold, font_code] ++ streams.map stream_object) ++
      (List.range streams.length).map
        (fun i => page_object (4 + streams.length + streams.length)
          (4 + i))) ++
      [pages_tree_object
        ((List.range streams.length).map
          fun idx => 4 + streams.length + idx) streams.length]).length
    from by simp; omega]
  rw [list_set_append _ ([] : List ℕ) _ []]
  simp

/-- An object block starts with the object header token. -/
theorem obj_block_head (id : ℕ) (obj : List ℕ) :
    obj_block id obj =
      obj_header id ++ (encodeStr "\n" ++ obj ++ encodeStr "\nendobj\n") := by
  rw [obj_block, obj_header, encodeStr_append,
    show encodeStr " 0 obj\n" = encodeStr " 0 obj" ++ encodeStr "\n" from by
      decide,
    encodeStr_append]
  simp [List.append_assoc]

/-- Decomposition of a content-stream object into its length
dictionary, the stream marker, the raw bytes and the end marker. -/
theorem stream_object_eq (s : List ℕ) :
    stream_object s =
      encodeStr ("<< /Length " ++ Nat.repr s.length ++ " >>") ++
        encodeStr "\nstream\n" ++ s ++ encodeStr "endstream" := by
  rw [stream_object, encodeStr_append, encodeStr_append,
    show encodeStr " >>\nstream\n" =
      encodeStr " >>" ++ encodeStr "\nstream\n" from by decide,
    encodeStr_append, encodeStr_append]
  simp [List.append_assoc]

/-- C2: `build_pdf` assigns 1-based contiguous object identifiers in
the fixed order: fonts at identifiers 1 to 3, the content-stream
objects at 4 through N+3 in page order, the page dictionaries at N+4
through 2N+3 in the same order, the pages tree at 2N+4 and the catalog
at 2N+5; identifier `i` is the object stored at index `i - 1` of the
object table, and the file body emits the objects in increasing
identifier order, the block of identifier `id` opening with the header
line of `id`. -/
theorem build_pdf_object_order (streams : List (List ℕ)) :
    pdf_objects streams =
      [font_regular, font_bold, font_code] ++ streams.map stream_object ++
        (List.range streams.length).map
          (fun idx =>
            page_object (4 + streams.length + streams.length) (4 + idx)) ++
        [pages_tree_object
          ((List.range streams.length).map
            fun idx => 4 + streams.length + idx) streams.length,
          catalog_object (4 + streams.length + streams.length)] ∧
      (emit_loop pdf_header 1 (pdf_objects streams)).1 =
        pdf_header ++ emit_blocks 1 (pdf_objects streams) :=
  ⟨pdf_objects_eq streams, emit_loop_fst _ _ _⟩

/-- C1: the serializer round-trip.  Whenever the cross-reference table
records offset `off` for the object with identifier `k + 1`, the bytes
of the output file starting at position `off` begin with that object's
header token `f"{k+1} 0 obj"`; the table entry itself is the ten-digit
zero-padded rendering of `off`; and every content-stream object
declares `/Length` equal to the exact byte count of the corresponding
input buffer, which sits unchanged between the `stream` and
`endstream` markers. -/
theorem build_pdf_roundtrip (streams : List (List ℕ)) (k off : ℕ)
    (hk : (pdf_offsets streams)[k]? = some off) :
    (((build_pdf streams).drop off).take (obj_header (k + 1)).length =
        obj_header (k + 1)) ∧
      ((pdf_offsets streams).map xref_entry)[k]? =
        some (encodeStr (pad10 off ++ " 00000 n \n")) ∧
      ∀ (j : ℕ) (s : List ℕ), streams[j]? = some s →
        (pdf_objects streams)[4 + j - 1]? =
          some (encodeStr ("<< /Length " ++ Nat.repr s.length ++ " >>") ++
            encodeStr "\nstream\n" ++ s ++ encodeStr "endstream") := by
  have hlenk : k < (pdf_objects streams).length := by
    obtain ⟨hb, _⟩ := List.getElem?_eq_some.mp hk
    have he : (pdf_offsets streams).length = (pdf_objects streams).length := by
      rw [show pdf_offsets streams =
        (emit_loop pdf_header 1 (pdf_objects streams)).2 from rfl]
      exact emit_loop_snd_length _ _ _
    omega
  obtain ⟨obj, hobj⟩ : ∃ obj, (pdf_objects streams)[k]? = some obj :=
    ⟨_, List.getElem?_eq_getElem hlenk⟩
  obtain ⟨pre, tail, h1, h2⟩ := emit_loop_offsets (pdf_objects streams)
    pdf_header 1 k obj hobj
  have hoff : off = pre.length := by
    rw [show (emit_loop pdf_header 1 (pdf_objects streams)).2 =
      pdf_offsets streams from rfl, hk] at h1
    exact Option.some_inj.mp h1
  refine ⟨?_, ?_, ?_⟩
  · have hbuild : build_pdf streams =
        (emit_loop pdf_header 1 (pdf_objects streams)).1 ++
          xref_trailer streams := by
      show (emit_loop pdf_header 1 (pdf_objects streams)).1 ++
        xref_trailer streams = _
      rfl
    rw [hbuild, h2, hoff]
    simp only [List.append_assoc]
    rw [List.drop_left, obj_block_head, show (1 + k) = (k + 1) from by omega,
      List.append_assoc]
    exact List.take_left _ _
  · rw [List.getElem?_map, hk]
    rfl
  · intro j s hs
    obtain ⟨hj, _⟩ := List.getElem?_eq_some.mp hs
    rw [pdf_objects_eq, show 4 + j - 1 = 3 + j from by omega]
    rw [List.getElem?_append, if_pos (by
      simp only [List.length_append, List.length_cons, List.length_nil,
        List.length_map, List.length_range]
      omega)]
    rw [List.getElem?_append, if_pos (by
      simp only [List.length_append, List.length_cons, List.length_nil,
        List.length_map]
      omega)]
    rw [List.getElem?_append, if_neg (by
      simp only [List.length_cons, List.length_nil]
      omega)]
    simp only [List.length_cons, List.length_nil]
    rw [show 3 + j - (0 + 1 + 1 + 1) = j from by omega]
    rw [List.getElem?_map, hs]
    show some (stream_object s) = _
    rw [stream_object_eq]

/-- C1 witness: a one-page file with a single content byte; the first
object header sits right after the 15-byte file header. -/
theorem build_pdf_roundtrip_witness :
    ((pdf_offsets [[65]])[0]? = some 15) ∧
      ((build_pdf [[65]]).drop 15).take (obj_header (0 + 1)).length =
        obj_header (0 + 1) :=
  ⟨by decide, (build_pdf_roundtrip [[65]] 0 15 (by decide)).1⟩

end PdfGuide
